import Mathlib

/-!
Verification of odmpy's chapter-marker timeline engine.

This file is a shallow embedding of the chapter/marker code of the odmpy
repository:

* `src/odmpy/libby.py` — `FILE_PART_RE`, `parse_part_path`, `parse_toc`,
  `merge_toc`;
* `src/odmpy/processing.py` — the embedded-marker timestamp parsing
  (`MARKER_TIMESTAMP_MMSS` / `MARKER_TIMESTAMP_HHMMSS` and the
  `time.strptime` attempts of `process_odm`) and the per-part chapter list
  (`generated_markers`) construction.

Modelling conventions:

* Python `str` is modelled as `List Char` (abbreviated `Str`); regex
  character classes are modelled over these characters (`\d` is modelled as
  the ASCII digits, which is what all inputs in this code base use).
* Python `float` is modelled as the exact rational `ℚ`; the decimal
  literals appearing here are exactly representable and every compared
  quantity is computed by the same operation sequence, so rounding is not
  observable in the properties proved below.
* Python `int` is modelled as `Nat`/`Int`.
* A raised exception (`ValueError`, `KeyError`) is modelled as
  `Except.error` carrying the message.
* `OrderedDict` is modelled as an association list in insertion order with
  unique keys.
-/

/-- Python strings are modelled as lists of characters. -/
abbrev Str := List Char

/-- Coerce a Lean string literal to the `Str` model. -/
def strL (s : String) : Str := s.data

/-- Key lookup in an insertion-ordered association list (the model of
Python dict indexing / `in`). -/
def alookup {β : Type} (k : Str) : List (Str × β) → Option β
  | [] => none
  | e :: t => if e.1 = k then some e.2 else alookup k t

/-- `ChapterMarker` named tuple (src/odmpy/libby.py, line 47). -/
structure ChapterMarker where
  title : Str
  part_name : Str
  start_second : ℚ
  end_second : ℚ
deriving DecidableEq, Repr

/-! ## The identifier parser: `FILE_PART_RE` and `parse_part_path`

`FILE_PART_RE = re.compile(r"(?P<part_name>{[A-F0-9\-]{36}}[^#]+)(#(?P<second_stamp>\d+(\.\d+)?))?$")`
used via `FILE_PART_RE.match(part_path)` (anchored at the start of the
string; Python `$` matches at the end of the string or just before a
final newline).

The matcher below is the hand-compilation of this regex into a
deterministic function. Determinism is justified as follows: the brace
token is at a fixed position with fixed length; `[^#]+` is greedy and its
class excludes `#`, so it takes the maximal `#`-free run; `\d+` and `\.\d+`
take maximal digit runs because the regex position after them holds a
non-digit (`.` or `$`); the only backtracking the regex could perform
(shrinking a greedy run, or skipping the optional fragment group) exposes a
character at which the following mandatory token (`:`/`.`/`#`/`$`) fails,
so it never turns a failure into a match.
-/

/-- Character class `[A-F0-9\-]` of `FILE_PART_RE`. -/
def isIdChar (c : Char) : Bool :=
  ('A' ≤ c && c ≤ 'F') || ('0' ≤ c && c ≤ '9') || c = '-'

/-- Matches the prefix `{[A-F0-9\-]{36}}` of `FILE_PART_RE`; returns the
36-character token and the remainder of the string. -/
def braceSplit : Str → Option (Str × Str)
  | '{' :: rest =>
    let t := rest.take 36
    if t.length = 36 && t.all isIdChar then
      match rest.drop 36 with
      | '}' :: r => some (t, r)
      | _ => none
    else none
  | _ => none

/-- Matches `\d+(\.\d+)?$` (the `second_stamp` group of `FILE_PART_RE`,
after the literal `#`), where Python `$` also accepts a single trailing
newline. Returns the matched digit string. -/
def fragParse (x : Str) : Option Str :=
  let d := x.takeWhile Char.isDigit
  let x' := x.dropWhile Char.isDigit
  if d = [] then none
  else
    match x' with
    | [] => some d
    | ['\n'] => some d
    | '.' :: y =>
      let e := y.takeWhile Char.isDigit
      let y' := y.dropWhile Char.isDigit
      if e = [] then none
      else if y' = [] || y' = ['\n'] then some (d ++ '.' :: e) else none
    | _ => none

/-- Executable model of `FILE_PART_RE.match` (src/odmpy/libby.py, line 100).
Returns the `part_name` group and the optional `second_stamp` group. -/
def FILE_PART_RE_match (s : Str) : Option (Str × Option Str) :=
  match braceSplit s with
  | none => none
  | some (t, r) =>
    let u := r.takeWhile (fun c => c != '#')
    let w := r.dropWhile (fun c => c != '#')
    if u = [] then none
    else
      match w with
      | [] => some ('{' :: t ++ '}' :: u, none)
      | '#' :: x =>
        match fragParse x with
        | some d => some ('{' :: t ++ '}' :: u, some d)
        | none => none
      | _ => none

/-- Digit value of an ASCII digit character. -/
def digitVal (c : Char) : Nat := c.toNat - 48

/-- Value of a digit string, as computed by Python `int`. -/
def natVal (l : Str) : Nat := l.foldl (fun a c => 10 * a + digitVal c) 0

/-- Python `float` applied to a matched `second_stamp` string
(`\d+(\.\d+)?`), modelled as the exact decimal rational. -/
def decimalVal (l : Str) : ℚ :=
  let ip := l.takeWhile Char.isDigit
  match l.dropWhile Char.isDigit with
  | '.' :: fp => (natVal ip : ℚ) + (natVal fp : ℚ) / (10 : ℚ) ^ fp.length
  | _ => (natVal ip : ℚ)

/-- `parse_part_path` (src/odmpy/libby.py, line 123): extracts a
`ChapterMarker` from a part path, raising `ValueError` when the path does
not match `FILE_PART_RE`. -/
def parse_part_path (title : Str) (part_path : Str) : Except String ChapterMarker :=
  match FILE_PART_RE_match part_path with
  | none => .error ("Unexpected path format: " ++ String.mk part_path)
  | some (pn, stamp) =>
    .ok { title := title
          part_name := pn
          start_second := match stamp with | some d => decimalVal d | none => 0
          end_second := 0 }

/-! ## The acceptance shape claimed for the identifier parser (C10)

`claimShape` is written from the claim's words, not from the code: brace
token of exactly 36 characters from `A-F0-9-`, then at least one non-`#`
character, then optionally `#` and an unsigned decimal number, with
nothing after. `claimShapeNl` is the single relaxation that the code's
`$` actually performs: one trailing newline after the fragment. -/

/-- Strict fragment shape from the claim: an unsigned decimal number with
nothing after it. -/
def fragStrict (x : Str) : Bool :=
  let d := x.takeWhile Char.isDigit
  let x' := x.dropWhile Char.isDigit
  if d = [] then false
  else
    match x' with
    | [] => true
    | '.' :: y =>
      let e := y.takeWhile Char.isDigit
      let y' := y.dropWhile Char.isDigit
      if e = [] then false else y' = []
    | _ => false

/-- Fragment shape followed by exactly one newline (the relaxation Python's
`$` adds to the claimed shape). -/
def fragNl (x : Str) : Bool :=
  let d := x.takeWhile Char.isDigit
  let x' := x.dropWhile Char.isDigit
  if d = [] then false
  else
    match x' with
    | ['\n'] => true
    | '.' :: y =>
      let e := y.takeWhile Char.isDigit
      let y' := y.dropWhile Char.isDigit
      if e = [] then false else y' = ['\n']
    | _ => false

/-- The acceptance condition asserted by the claim: brace-delimited
36-character token over `A-F0-9-`, at least one non-`#` character,
optionally `#` and an unsigned decimal number, nothing after. -/
def claimShape (s : Str) : Bool :=
  match braceSplit s with
  | none => false
  | some (_, r) =>
    let u := r.takeWhile (fun c => c != '#')
    let w := r.dropWhile (fun c => c != '#')
    if u = [] then false
    else
      match w with
      | [] => true
      | '#' :: x => fragStrict x
      | _ => false

/-- The claimed shape with one trailing newline after the `#` fragment. -/
def claimShapeNl (s : Str) : Bool :=
  match braceSplit s with
  | none => false
  | some (_, r) =>
    let u := r.takeWhile (fun c => c != '#')
    let w := r.dropWhile (fun c => c != '#')
    if u = [] then false
    else
      match w with
      | '#' :: x => fragNl x
      | _ => false

/-! ## The API-sourced per-part builder: `parse_toc` (src/odmpy/libby.py, line 146)

`toc` items are `{title, path, contents?}` dicts; only the `path` of each
nested `contents` entry is read (the code deliberately reuses the parent
`title`). `spine` items carry the wire-contract fields
`-odread-original-path`, `path`, `audio-duration`, `-odread-file-bytes`,
`-odread-spine-position` (hyphens are not valid in Lean names, so they are
transliterated). `urljoin` (Python `urllib.parse.urljoin`) is an external
collaborator and is passed in as a function parameter; no property below
depends on it. -/

structure TocItem where
  title : Str
  path : Str
  contents : List Str
deriving Repr

structure SpineItem where
  odread_original_path : Str
  path : Str
  audio_duration : ℚ
  odread_file_bytes : Int
  odread_spine_position : Int
deriving Repr

/-- `PartMeta` TypedDict (src/odmpy/libby.py, line 55). -/
structure PartMeta where
  chapters : List ChapterMarker
  url : Str
  audio_duration : ℚ
  file_length : Int
  spine_position : Int
deriving DecidableEq, Repr

/-- The dict created when a `part_name` is first seen in `parse_toc`. -/
def defaultPartMeta : PartMeta :=
  { chapters := [], url := [], audio_duration := 0, file_length := 0, spine_position := 0 }

/-- Parse the nested `contents` paths of one toc item, with the parent's
title (`parse_toc`, lines 161-164). -/
def parseContents (title : Str) : List Str → Except String (List ChapterMarker)
  | [] => .ok []
  | p :: rest => do
    let e ← parse_part_path title p
    let es ← parseContents title rest
    .ok (e :: es)

/-- Flatten the toc into the linear `entries` list (`parse_toc`,
lines 158-164).  A `ValueError` from `parse_part_path` propagates. -/
def parseEntries : List TocItem → Except String (List ChapterMarker)
  | [] => .ok []
  | item :: rest => do
    let e ← parse_part_path item.title item.path
    let subs ← parseContents item.title item.contents
    let es ← parseEntries rest
    .ok (e :: subs ++ es)

/-- Append one entry to a part's chapter list with the adjacent-title
de-duplication of `parse_toc` (lines 178-186): first entry is always kept,
a later entry is dropped iff its title equals the last kept entry's title. -/
def appendChapter (chs : List ChapterMarker) (e : ChapterMarker) : List ChapterMarker :=
  match chs.getLast? with
  | none => [e]
  | some c => if e.title = c.title then chs else chs ++ [e]

/-- The in-place mutation `parsed_toc[entry.part_name]["chapters"].append(...)`
(guarded by the de-duplication) on one part's metadata. -/
def updateChapters (e : ChapterMarker) (m : PartMeta) : PartMeta :=
  { m with chapters := appendChapter m.chapters e }

/-- Process one entry of the grouping loop of `parse_toc` (lines 169-186):
create the part's dict on first sight, then append the entry to its
chapter list (with adjacent de-duplication). -/
def addEntry (acc : List (Str × PartMeta)) (e : ChapterMarker) : List (Str × PartMeta) :=
  let acc1 := if (alookup e.part_name acc).isSome then acc
              else acc ++ [(e.part_name, defaultPartMeta)]
  acc1.map fun km =>
    if km.1 = e.part_name then (km.1, updateChapters e km.2) else km

/-- The grouping loop of `parse_toc` over all flattened entries. -/
def groupParts (es : List ChapterMarker) : List (Str × PartMeta) := es.foldl addEntry []

/-- The `update({...})` call of the spine loop on one part's metadata. -/
def updateFromSpine (urljoin : Str → Str → Str) (base_url : Str) (s : SpineItem)
    (m : PartMeta) : PartMeta :=
  { m with url := urljoin base_url s.path
           audio_duration := s.audio_duration
           file_length := s.odread_file_bytes
           spine_position := s.odread_spine_position }

/-- The spine loop of `parse_toc` (lines 188-196):
`parsed_toc[s["-odread-original-path"]].update({...})`. Python raises
`KeyError` when the spine path is not a key of `parsed_toc`. -/
def applySpine (urljoin : Str → Str → Str) (base_url : Str)
    (parts : List (Str × PartMeta)) : List SpineItem → Except String (List (Str × PartMeta))
  | [] => .ok parts
  | s :: rest =>
    if (alookup s.odread_original_path parts).isSome then
      applySpine urljoin base_url
        (parts.map fun km =>
          if km.1 = s.odread_original_path then
            (km.1, updateFromSpine urljoin base_url s km.2)
          else km) rest
    else .error ("KeyError: " ++ String.mk s.odread_original_path)

/-- The `end_second` resolution loop of `parse_toc` (lines 197-213): each
chapter's end is the next chapter's start; the last chapter's end is the
part's `audio-duration`.  (The Python loop indexes `chapters[i + 1]` when
`i < len(chapters) - 1`; this structural recursion performs exactly those
accesses.) -/
def resolveEnds (dur : ℚ) : List ChapterMarker → List ChapterMarker
  | [] => []
  | [c] => [{ c with end_second := dur }]
  | c :: c2 :: rest => { c with end_second := c2.start_second } :: resolveEnds dur (c2 :: rest)

/-- End-resolution on one part's metadata. -/
def resolveMeta (m : PartMeta) : PartMeta :=
  { m with chapters := resolveEnds m.audio_duration m.chapters }

/-- End-resolution applied to every part of the parsed toc. -/
def resolveAllEnds (parts : List (Str × PartMeta)) : List (Str × PartMeta) :=
  parts.map fun km => (km.1, resolveMeta km.2)

/-- `parse_toc` (src/odmpy/libby.py, line 146), composed of the stages
above in source order. -/
def parse_toc (urljoin : Str → Str → Str) (base_url : Str)
    (toc : List TocItem) (spine : List SpineItem) :
    Except String (List (Str × PartMeta)) := do
  let entries ← parseEntries toc
  let parsed ← applySpine urljoin base_url (groupParts entries) spine
  .ok (resolveAllEnds parsed)

/-! ## The cross-part merger: `merge_toc` (src/odmpy/libby.py, line 218) -/

/-- Overwrite the `end` component of a `{start, end}` value. -/
def setEndVal (v : ℚ) (se : ℚ × ℚ) : ℚ × ℚ := (se.1, v)

/-- One iteration of the inner marker loop of `merge_toc` (lines 229-235):
insert a new `{start, end: 0}` dict when the title is unseen, then set the
title's `end` to `cumu_part_duration + marker.end_second`. The
`OrderedDict` is an association list; keys are unique by construction, and
the map below (with `setEndVal`) touches exactly the entry with the
marker's title. -/
def mergeStep (cumu : ℚ) (a : List (Str × ℚ × ℚ)) (m : ChapterMarker) : List (Str × ℚ × ℚ) :=
  let a1 := if (alookup m.title a).isSome then a
            else a ++ [(m.title, (cumu + m.start_second, 0))]
  a1.map fun e => if e.1 = m.title then (e.1, setEndVal (cumu + m.end_second) e.2) else e

/-- Python `sum(p["audio-duration"] for p in parts)`. -/
def sumDur (parts : List PartMeta) : ℚ := (parts.map (·.audio_duration)).sum

/-- `merge_toc` (src/odmpy/libby.py, line 218).  `cumu_part_duration` is
recomputed for each part as the sum of the declared durations of the
preceding parts, exactly as in the source (`sum([p["audio-duration"] for p
in parts[:i]])`). -/
def merge_toc (toc : List (Str × PartMeta)) : List ChapterMarker :=
  let parts := toc.map Prod.snd
  let chapters := parts.enum.foldl
    (fun acc ip => ip.2.chapters.foldl (mergeStep (sumDur (parts.take ip.1))) acc) []
  chapters.map fun tse => { title := tse.1, part_name := [],
                            start_second := tse.2.1, end_second := tse.2.2 }

/-- Accumulator form of the part loop of `merge_toc`; proved equal to the
`enum`-and-prefix-sum form below (`merge_toc_eq_mergeGo`). -/
def mergeGo (cumu : ℚ) : List PartMeta → List (Str × ℚ × ℚ) → List (Str × ℚ × ℚ)
  | [], st => st
  | p :: ps, st => mergeGo (cumu + p.audio_duration) ps (p.chapters.foldl (mergeStep cumu) st)

/-! ## The embedded-marker timestamp parser (src/odmpy/processing.py, lines 468-505)

The code first tries `time.strptime(marker_timestamp, r)` for
`r in ("%M:%S.%f", "%H:%M:%S.%f")`.  CPython's `_strptime` compiles these
formats to the regular expressions

* `%H` → `2[0-3]|[0-1]\d|\d` (hours 0-23),
* `%M` → `[0-5]\d|\d` (minutes 0-59),
* `%S` → `6[0-1]|[0-5]\d|\d` (seconds 0-61, leap seconds included),
* `%f` → `[0-9]{1,6}`,

matches them against the start of the string, and raises `ValueError`
unless the match consumes the whole string.  Since every field class
consists of digits only and every separator (`:`, `.`) is a non-digit,
each field must consume an entire maximal digit run, so the matchers
below split the string into maximal digit runs and check each run against
its field language (1 digit always accepted; 2 digits accepted when the
value is in range; longer runs rejected).  On success the code computes
`datetime.timedelta(hours=tm_hour, minutes=tm_min, seconds=tm_sec)`:
`struct_time` has no sub-second field, so the `%f` fraction is parsed and
then discarded.

If both strict parses fail, the code falls back to the permissive regexes
`MARKER_TIMESTAMP_HHMMSS` and then `MARKER_TIMESTAMP_MMSS`
(`re.match`, prefix-anchored, fields `[0-9]+`), and sums
`hr*3600000 + min*60000 + sec*1000 + ms`.  If neither matches it raises
`ValueError`. -/

/-- `%H` field language: a maximal digit run accepted by `2[0-3]|[0-1]\d|\d`. -/
def hourField : Str → Bool
  | [c] => c.isDigit
  | [c1, c2] => (c1 = '2' && '0' ≤ c2 && c2 ≤ '3') || (('0' ≤ c1 && c1 ≤ '1') && c2.isDigit)
  | _ => false

/-- `%M` field language: a maximal digit run accepted by `[0-5]\d|\d`. -/
def minuteField : Str → Bool
  | [c] => c.isDigit
  | [c1, c2] => ('0' ≤ c1 && c1 ≤ '5') && c2.isDigit
  | _ => false

/-- `%S` field language: a maximal digit run accepted by `6[0-1]|[0-5]\d|\d`. -/
def secondField : Str → Bool
  | [c] => c.isDigit
  | [c1, c2] => (c1 = '6' && ('0' ≤ c2 && c2 ≤ '1')) || (('0' ≤ c1 && c1 ≤ '5') && c2.isDigit)
  | _ => false

/-- `time.strptime(l, "%M:%S.%f")`, returning `(tm_min, tm_sec)`. -/
def strptime_MSf (l : Str) : Option (Nat × Nat) :=
  let r1 := l.takeWhile Char.isDigit
  match l.dropWhile Char.isDigit with
  | ':' :: l2 =>
    if minuteField r1 then
      let r2 := l2.takeWhile Char.isDigit
      match l2.dropWhile Char.isDigit with
      | '.' :: l3 =>
        if secondField r2 then
          let r3 := l3.takeWhile Char.isDigit
          if 1 ≤ r3.length && r3.length ≤ 6 && l3.dropWhile Char.isDigit = [] then
            some (natVal r1, natVal r2)
          else none
        else none
      | _ => none
    else none
  | _ => none

/-- `time.strptime(l, "%H:%M:%S.%f")`, returning `(tm_hour, tm_min, tm_sec)`. -/
def strptime_HMSf (l : Str) : Option (Nat × Nat × Nat) :=
  let r1 := l.takeWhile Char.isDigit
  match l.dropWhile Char.isDigit with
  | ':' :: l2 =>
    if hourField r1 then
      let r2 := l2.takeWhile Char.isDigit
      match l2.dropWhile Char.isDigit with
      | ':' :: l3 =>
        if minuteField r2 then
          let r3 := l3.takeWhile Char.isDigit
          match l3.dropWhile Char.isDigit with
          | '.' :: l4 =>
            if secondField r3 then
              let r4 := l4.takeWhile Char.isDigit
              if 1 ≤ r4.length && r4.length ≤ 6 && l4.dropWhile Char.isDigit = [] then
                some (natVal r1, natVal r2, natVal r3)
              else none
            else none
          | _ => none
        else none
      | _ => none
    else none
  | _ => none

/-- `re.match(MARKER_TIMESTAMP_HHMMSS, l)` where `MARKER_TIMESTAMP_HHMMSS =
r"(?P<hr>[0-9]+):(?P<min>[0-9]+):(?P<sec>[0-9]+)\.(?P<ms>[0-9]+)"`
(prefix-anchored, no end anchor). -/
def MARKER_TIMESTAMP_HHMMSS_match (l : Str) : Option (Nat × Nat × Nat × Nat) :=
  let r1 := l.takeWhile Char.isDigit
  if r1 = [] then none
  else match l.dropWhile Char.isDigit with
  | ':' :: l2 =>
    let r2 := l2.takeWhile Char.isDigit
    if r2 = [] then none
    else match l2.dropWhile Char.isDigit with
    | ':' :: l3 =>
      let r3 := l3.takeWhile Char.isDigit
      if r3 = [] then none
      else match l3.dropWhile Char.isDigit with
      | '.' :: l4 =>
        let r4 := l4.takeWhile Char.isDigit
        if r4 = [] then none
        else some (natVal r1, natVal r2, natVal r3, natVal r4)
      | _ => none
    | _ => none
  | _ => none

/-- `re.match(MARKER_TIMESTAMP_MMSS, l)` where `MARKER_TIMESTAMP_MMSS =
r"(?P<min>[0-9]+):(?P<sec>[0-9]+)\.(?P<ms>[0-9]+)"` (prefix-anchored). -/
def MARKER_TIMESTAMP_MMSS_match (l : Str) : Option (Nat × Nat × Nat) :=
  let r1 := l.takeWhile Char.isDigit
  if r1 = [] then none
  else match l.dropWhile Char.isDigit with
  | ':' :: l2 =>
    let r2 := l2.takeWhile Char.isDigit
    if r2 = [] then none
    else match l2.dropWhile Char.isDigit with
    | '.' :: l3 =>
      let r3 := l3.takeWhile Char.isDigit
      if r3 = [] then none
      else some (natVal r1, natVal r2, natVal r3)
    | _ => none
  | _ => none

/-- The marker-timestamp parsing of `process_odm`
(src/odmpy/processing.py, lines 468-505): strict `strptime` attempts in
order `%M:%S.%f`, `%H:%M:%S.%f` (whose result drops the fraction:
`ts_mark = int(1000 * timedelta(hours, minutes, seconds).total_seconds())`),
then the permissive regexes `MARKER_TIMESTAMP_HHMMSS`,
`MARKER_TIMESTAMP_MMSS`; `none` models the final `ValueError`. -/
def parse_marker_timestamp (l : Str) : Option Nat :=
  match strptime_MSf l with
  | some (m, s) => some ((m * 60 + s) * 1000)
  | none =>
    match strptime_HMSf l with
    | some (h, m, s) => some ((h * 3600 + m * 60 + s) * 1000)
    | none =>
      match MARKER_TIMESTAMP_HHMMSS_match l with
      | some (hr, mn, sc, ms) => some (hr * 3600000 + mn * 60000 + sc * 1000 + ms)
      | none =>
        match MARKER_TIMESTAMP_MMSS_match l with
        | some (mn, sc, ms) => some (mn * 60000 + sc * 1000 + ms)
        | none => none

/-- ASCII digit character of a digit value. -/
def digitChar (d : Nat) : Char := Char.ofNat (48 + d)

/-- Python `f"{n:02d}"` for `n ≤ 99`. -/
def pad2 (n : Nat) : Str := [digitChar (n / 10), digitChar (n % 10)]

/-- Python `f"{n:03d}"` for `n ≤ 999`. -/
def pad3 (n : Nat) : Str := [digitChar (n / 100), digitChar (n / 10 % 10), digitChar (n % 10)]

/-- A timestamp formatted as `HH:MM:SS.mmm` (the claim's format), for
`h, m, s ≤ 99` and `ms ≤ 999`. -/
def fmtHMS (h m s ms : Nat) : Str :=
  pad2 h ++ ':' :: pad2 m ++ ':' :: pad2 s ++ '.' :: pad3 ms

/-! ## The embedded-marker per-part chapter list (src/odmpy/processing.py, lines 519-532)

`part_markers` is the list of `(f"ch{track_count:02d}", marker_name,
ts_mark)` triples extracted from the part's "OverDrive MediaMarkers"
frame; `decoded_ms` is `int(round(audiofile.info.time_secs * 1000))`, the
part's real decoded duration in milliseconds (an external input from the
tag-reading collaborator). -/

structure GenMarker where
  id : Str
  text : Str
  start_time : Int
  end_time : Int
deriving DecidableEq, Repr

/-- The `generated_markers` loop (src/odmpy/processing.py, lines 519-532):
`end_time` is the next marker's timestamp, or the decoded duration for the
last marker.  (The Python loop reads `part_markers[j + 1][2]` when
`j < len(part_markers) - 1`; this structural recursion performs exactly
those accesses.) -/
def generated_markers (decoded_ms : Int) : List (Str × Str × Int) → List GenMarker
  | [] => []
  | [(i, n, t)] => [{ id := i, text := n, start_time := t, end_time := decoded_ms }]
  | (i, n, t) :: m2 :: rest =>
    { id := i, text := n, start_time := t, end_time := m2.2.2 } ::
      generated_markers decoded_ms (m2 :: rest)

/-! ## Timeline predicates and the offset-concatenation form of the merge -/

/-- The MergedTimeline end-chaining invariant: every marker's end is the
next marker's start, and the final marker's end is `total`. -/
def endsChained : List ChapterMarker → ℚ → Prop
  | [], _ => True
  | [m], total => m.end_second = total
  | m :: m2 :: rest, total => m.end_second = m2.start_second ∧ endsChained (m2 :: rest) total

/-- Globally non-decreasing start offsets. -/
def startsMono : List ChapterMarker → Prop
  | [] => True
  | [_] => True
  | m :: m2 :: rest => m.start_second ≤ m2.start_second ∧ startsMono (m2 :: rest)

/-- A marker re-expressed in the merged coordinate space: part id cleared,
offsets shifted by the cumulative duration of the preceding parts. -/
def offsetMarker (cumu : ℚ) (c : ChapterMarker) : ChapterMarker :=
  { title := c.title, part_name := [],
    start_second := cumu + c.start_second, end_second := cumu + c.end_second }

/-- Plain offset-concatenation of per-part chapter lists: what `merge_toc`
computes when no title recurs across markers. -/
def offsetMerged (cumu : ℚ) : List PartMeta → List ChapterMarker
  | [] => []
  | p :: ps => p.chapters.map (offsetMarker cumu) ++ offsetMerged (cumu + p.audio_duration) ps

/-- First-seen-order de-duplication of a title list (the key order of the
`chapters` OrderedDict of `merge_toc`). -/
def firstSeenTitles (ts : List Str) : List Str :=
  ts.foldl (fun ks t => if t ∈ ks then ks else ks ++ [t]) []

/-- All marker titles of a part list, in traversal order. -/
def allTitles (parts : List PartMeta) : List Str :=
  (parts.map (fun p => p.chapters.map (·.title))).flatten

/-- State-level form of the offset-concatenation: the association list
`merge_toc` builds when no title recurs. -/
def offsetEntries (cumu : ℚ) : List PartMeta → List (Str × ℚ × ℚ)
  | [] => []
  | p :: ps =>
    p.chapters.map (fun c => (c.title, (cumu + c.start_second, cumu + c.end_second))) ++
      offsetEntries (cumu + p.audio_duration) ps

/-- The per-part (PartTimeline) invariant of the spec: non-empty resolved
chapter list, ends chained to the part's declared duration, first chapter
starting at offset 0, and no chapter ending before it starts. -/
def validPart (p : PartMeta) : Prop :=
  p.chapters ≠ [] ∧
  endsChained p.chapters p.audio_duration ∧
  (∀ c0, p.chapters.head? = some c0 → c0.start_second = 0) ∧
  ∀ c ∈ p.chapters, c.start_second ≤ c.end_second

/-! ## Concrete inputs used by the examples, counterexamples and witnesses -/

/-- A valid 36-character brace token (the `{A}` placeholder of the spec's
examples stands for such a token; a 1-character token would itself be
rejected by `FILE_PART_RE`). -/
def idA : Str := strL "AAAAAAAA-BBBB-CCCC-9999-ABCDEF123456"

/-- The part path `{idA}p1` (no fragment). -/
def pathA0 : Str := '{' :: idA ++ '}' :: strL "p1"

/-- The part name both example paths resolve to. -/
def pnA : Str := pathA0

/-- The part path `{idA}p1#5`. -/
def pathA5 : Str := pathA0 ++ '#' :: strL "5"

/-- The part path `{idA}p1#2`. -/
def pathA2 : Str := pathA0 ++ '#' :: strL "2"

/-- The part path `{idA}p1#4`. -/
def pathA4 : Str := pathA0 ++ '#' :: strL "4"

/-- An identity stand-in for the external `urljoin` collaborator, used in
concrete runs (no property depends on the url field). -/
def ujId : Str → Str → Str := fun _ p => p

/-- C4 example 1: toc entries `[("Ch1",{A}p1), ("Ch1",{A}p1#5), ("Ch2",{A}p1#5)]`. -/
def tocEx1 : List TocItem :=
  [ { title := strL "Ch1", path := pathA0, contents := [] },
    { title := strL "Ch1", path := pathA5, contents := [] },
    { title := strL "Ch2", path := pathA5, contents := [] } ]

/-- C4 example 1: spine with duration 10 for part `{A}p1`. -/
def spineEx1 : List SpineItem :=
  [ { odread_original_path := pnA, path := strL "part1.mp3",
      audio_duration := 10, odread_file_bytes := 123, odread_spine_position := 0 } ]

/-- C4 example 2: toc entries `[("A",{A}p1), ("B",{A}p1#2), ("A",{A}p1#4)]`
(non-adjacent repeat of title "A"). -/
def tocEx2 : List TocItem :=
  [ { title := strL "A", path := pathA0, contents := [] },
    { title := strL "B", path := pathA2, contents := [] },
    { title := strL "A", path := pathA4, contents := [] } ]

/-- Part 1 of the merge examples: duration 100, chapters `[("Intro",0,100)]`. -/
def introPart : PartMeta :=
  { chapters := [{ title := strL "Intro", part_name := strL "p1",
                   start_second := 0, end_second := 100 }],
    url := [], audio_duration := 100, file_length := 0, spine_position := 0 }

/-- Part 2 of the C3 example: duration 50, chapters `[("Ch1",0,50)]`. -/
def ch1Part : PartMeta :=
  { chapters := [{ title := strL "Ch1", part_name := strL "p2",
                   start_second := 0, end_second := 50 }],
    url := [], audio_duration := 50, file_length := 0, spine_position := 1 }

/-- Part 2 of the C1 example: "Intro" reappears at relative `[0,10)`. -/
def introAgainPart : PartMeta :=
  { chapters := [{ title := strL "Intro", part_name := strL "p2",
                   start_second := 0, end_second := 10 }],
    url := [], audio_duration := 50, file_length := 0, spine_position := 1 }

/-- Middle part of the C7 counterexample: duration 50, chapters `[("Ch2",0,50)]`. -/
def ch2Part : PartMeta :=
  { chapters := [{ title := strL "Ch2", part_name := strL "p2",
                   start_second := 0, end_second := 50 }],
    url := [], audio_duration := 50, file_length := 0, spine_position := 1 }

/-- Last part of the C7 counterexample: duration 20, chapters
`[("Intro",0,10), ("Ch3",10,20)]` — "Intro" recurs in a non-adjacent part.
The part itself satisfies every per-part invariant. -/
def introCh3Part : PartMeta :=
  { chapters := [{ title := strL "Intro", part_name := strL "p3",
                   start_second := 0, end_second := 10 },
                 { title := strL "Ch3", part_name := strL "p3",
                   start_second := 10, end_second := 20 }],
    url := [], audio_duration := 20, file_length := 0, spine_position := 2 }

/-- The C10 counterexample path: a well-formed path plus `#5` and a single
trailing newline, which Python's `$` accepts. -/
def pathNl : Str := pathA0 ++ '#' :: '5' :: '\n' :: []

/-- One-item toc used by the C8 example runs. -/
def tocT : List TocItem := [{ title := strL "T", path := pathA0, contents := [] }]

/-- The entry list `parse_part_path` produces from `tocT`. -/
def esT : List ChapterMarker :=
  [{ title := strL "T", part_name := pnA, start_second := 0, end_second := 0 }]

/-- The two-part toc of the C3 merge example, also used as a witness input. -/
def tocEx13 : List (Str × PartMeta) := [(strL "p1", introPart), (strL "p2", ch1Part)]

/-- A spine item whose `-odread-original-path` is absent from the toc. -/
def spineMissing : List SpineItem :=
  [{ odread_original_path := strL "missing", path := [], audio_duration := 1,
     odread_file_bytes := 2, odread_spine_position := 3 }]

/-- The part metadata `parse_toc` produces for `tocEx1`/`spineEx1`. -/
def metaEx1 : PartMeta :=
  { chapters := [{ title := strL "Ch1", part_name := pnA, start_second := 0, end_second := 5 },
                 { title := strL "Ch2", part_name := pnA, start_second := 5, end_second := 10 }],
    url := strL "part1.mp3", audio_duration := 10, file_length := 123, spine_position := 0 }

/-- A two-marker embedded-marker input (ids, names, millisecond stamps). -/
def msEx : List (Str × Str × Int) := [(strL "ch01", strL "A", 0), (strL "ch02", strL "B", 5000)]

/-- Decidable equality for fallible results, used to evaluate concrete runs. -/
instance exceptDecEq {ε α : Type} [DecidableEq ε] [DecidableEq α] :
    DecidableEq (Except ε α) := fun a b =>
  match a, b with
  | .ok x, .ok y =>
    if h : x = y then isTrue (by rw [h]) else isFalse (by simp [h])
  | .error x, .error y =>
    if h : x = y then isTrue (by rw [h]) else isFalse (by simp [h])
  | .ok _, .error _ => isFalse (by simp)
  | .error _, .ok _ => isFalse (by simp)

/-- The chapter list grouped under part name `p` (empty when `p` is
absent from the grouped mapping). -/
def chaptersOf (gp : List (Str × PartMeta)) (p : Str) : List ChapterMarker :=
  match alookup p gp with
  | some m => m.chapters
  | none => []

/-- Adjacent-title de-duplication as a standalone fold over one part's
markers: keep the first marker, drop a later marker iff its title equals
the last kept marker's title. -/
def adjDedup (l : List ChapterMarker) : List ChapterMarker := l.foldl appendChapter []

/-! ## Generic helper lemmas -/

theorem takeWhile_all_eq {α} (p : α → Bool) :
    ∀ l : List α, (∀ x ∈ l, p x = true) → l.takeWhile p = l := by
  intro l hl
  induction l with
  | nil => rfl
  | cons a t ih =>
    simp only [List.takeWhile_cons, hl a (by simp), if_true]
    rw [ih fun x hx => hl x (by simp [hx])]

theorem dropWhile_all_eq {α} (p : α → Bool) :
    ∀ l : List α, (∀ x ∈ l, p x = true) → l.dropWhile p = [] := by
  intro l hl
  induction l with
  | nil => rfl
  | cons a t ih =>
    simp only [List.dropWhile_cons, hl a (by simp), if_true]
    exact ih fun x hx => hl x (by simp [hx])

theorem takeWhile_append_stop {α} (p : α → Bool) (l : List α) (c : α) (r : List α)
    (hl : ∀ x ∈ l, p x = true) (hc : p c = false) :
    (l ++ c :: r).takeWhile p = l := by
  induction l with
  | nil => simp [List.takeWhile_cons, hc]
  | cons a t ih =>
    simp only [List.cons_append, List.takeWhile_cons, hl a (by simp), if_true]
    rw [ih fun x hx => hl x (by simp [hx])]

theorem dropWhile_append_stop {α} (p : α → Bool) (l : List α) (c : α) (r : List α)
    (hl : ∀ x ∈ l, p x = true) (hc : p c = false) :
    (l ++ c :: r).dropWhile p = c :: r := by
  induction l with
  | nil => simp [List.dropWhile_cons, hc]
  | cons a t ih =>
    simp only [List.cons_append, List.dropWhile_cons, hl a (by simp), if_true]
    exact ih fun x hx => hl x (by simp [hx])

theorem lookup_isSome_iff {β : Type} (k : Str) :
    ∀ l : List (Str × β), (alookup k l).isSome = true ↔ k ∈ l.map Prod.fst := by
  intro l
  induction l with
  | nil =>
    constructor
    · intro h2
      exact absurd h2 (by rw [alookup]; intro hc; cases hc)
    · intro h2
      rw [List.map_nil] at h2
      cases h2
  | cons e t ih =>
    by_cases h : e.1 = k
    · rw [alookup, if_pos h]
      constructor
      · intro _
        rw [List.map_cons, h]
        exact List.mem_cons_self _ _
      · intro _
        rfl
    · rw [alookup, if_neg h]
      rw [List.map_cons, List.mem_cons, ih]
      exact ⟨Or.inr, fun hk => hk.elim (fun hk2 => absurd hk2.symm h) id⟩

theorem lookup_map_value {β : Type} (k : Str) (g : Str → β → β) :
    ∀ l : List (Str × β),
      alookup k (l.map fun e => (e.1, g e.1 e.2)) = (alookup k l).map (g k) := by
  intro l
  induction l with
  | nil => rfl
  | cons e t ih =>
    by_cases h : e.1 = k
    · subst h
      simp [alookup]
    · simp only [List.map_cons, alookup, if_neg h]
      exact ih

/-! ## C10: what `FILE_PART_RE` accepts -/

theorem fragParse_isSome (x : Str) :
    (fragParse x).isSome = (fragStrict x || fragNl x) := by
  unfold fragParse fragStrict fragNl
  by_cases hd : x.takeWhile Char.isDigit = []
  · simp [hd]
  · simp only [hd, if_neg, if_false]
    cases hx : x.dropWhile Char.isDigit with
    | nil => simp
    | cons c y =>
      by_cases hc : c = '\n'
      · cases y with
        | nil => simp [hc]
        | cons c2 y2 => simp [hc]
      · by_cases hc2 : c = '.'
        · subst hc2
          by_cases he : y.takeWhile Char.isDigit = []
          · simp [he]
          · by_cases hy : y.dropWhile Char.isDigit = []
            · simp [he, hy]
            · by_cases hy2 : y.dropWhile Char.isDigit = ['\n']
              · simp [he, hy, hy2]
              · simp [he, hy, hy2]
        · cases y with
          | nil => simp [hc, hc2]
          | cons c2 y2 => simp [hc, hc2]

theorem braceSplit_pos (t : Str) (h36 : t.length = 36)
    (hclass : ∀ c ∈ t, isIdChar c = true) (r : Str) :
    braceSplit ('{' :: (t ++ '}' :: r)) = some (t, r) := by
  have ht : (t ++ '}' :: r).take 36 = t := by
    rw [← h36]
    exact List.take_left t ('}' :: r)
  have hd : (t ++ '}' :: r).drop 36 = '}' :: r := by
    rw [← h36]
    exact List.drop_left t ('}' :: r)
  unfold braceSplit
  simp only [ht, hd, h36, List.all_eq_true]
  simp
  exact hclass

theorem fragParse_digits (d : Str) (hd : d ≠ []) (hdig : ∀ c ∈ d, c.isDigit = true) :
    fragParse d = some d := by
  unfold fragParse
  rw [takeWhile_all_eq _ d hdig, dropWhile_all_eq _ d hdig]
  simp [hd]

theorem fragParse_decimal (d e : Str) (hd : d ≠ []) (hdd : ∀ c ∈ d, c.isDigit = true)
    (he : e ≠ []) (hed : ∀ c ∈ e, c.isDigit = true) :
    fragParse (d ++ '.' :: e) = some (d ++ '.' :: e) := by
  unfold fragParse
  rw [takeWhile_append_stop _ d '.' e hdd (by decide),
      dropWhile_append_stop _ d '.' e hdd (by decide)]
  have h1 : e.takeWhile Char.isDigit = e := takeWhile_all_eq _ e hed
  have h2 : e.dropWhile Char.isDigit = [] := dropWhile_all_eq _ e hed
  simp [hd, he, h1, h2]

theorem FILE_PART_RE_match_no_frag (t u : Str) (h36 : t.length = 36)
    (hclass : ∀ c ∈ t, isIdChar c = true) (hu : u ≠ []) (huc : ∀ c ∈ u, c ≠ '#') :
    FILE_PART_RE_match ('{' :: t ++ '}' :: u) = some ('{' :: t ++ '}' :: u, none) := by
  unfold FILE_PART_RE_match
  rw [List.cons_append, braceSplit_pos t h36 hclass u]
  have hall : ∀ c ∈ u, (fun c => c != '#') c = true := by
    intro c hc
    simpa using huc c hc
  have h1 : u.takeWhile (fun c => c != '#') = u := takeWhile_all_eq _ u hall
  have h2 : u.dropWhile (fun c => c != '#') = [] := dropWhile_all_eq _ u hall
  simp [h1, h2, hu]

theorem FILE_PART_RE_match_frag (t u frag : Str) (h36 : t.length = 36)
    (hclass : ∀ c ∈ t, isIdChar c = true) (hu : u ≠ []) (huc : ∀ c ∈ u, c ≠ '#')
    (hfrag : fragParse frag = some frag) :
    FILE_PART_RE_match ('{' :: t ++ '}' :: (u ++ '#' :: frag)) =
      some ('{' :: t ++ '}' :: u, some frag) := by
  unfold FILE_PART_RE_match
  rw [List.cons_append, braceSplit_pos t h36 hclass (u ++ '#' :: frag)]
  have hall : ∀ c ∈ u, (fun c => c != '#') c = true := by
    intro c hc
    simpa using huc c hc
  have h1 : (u ++ '#' :: frag).takeWhile (fun c => c != '#') = u :=
    takeWhile_append_stop _ u '#' frag hall (by decide)
  have h2 : (u ++ '#' :: frag).dropWhile (fun c => c != '#') = '#' :: frag :=
    dropWhile_append_stop _ u '#' frag hall (by decide)
  simp [h1, h2, hu, hfrag]

theorem decimalVal_digits (d : Str) (hdig : ∀ c ∈ d, c.isDigit = true) :
    decimalVal d = (natVal d : ℚ) := by
  unfold decimalVal
  rw [takeWhile_all_eq _ d hdig, dropWhile_all_eq _ d hdig]

theorem decimalVal_decimal (d e : Str) (hdd : ∀ c ∈ d, c.isDigit = true)
    (hed : ∀ c ∈ e, c.isDigit = true) :
    decimalVal (d ++ '.' :: e) = (natVal d : ℚ) + (natVal e : ℚ) / (10 : ℚ) ^ e.length := by
  unfold decimalVal
  rw [takeWhile_append_stop _ d '.' e hdd (by decide),
      dropWhile_append_stop _ d '.' e hdd (by decide)]
  simp

theorem FILE_PART_RE_isSome_eq (s : Str) :
    (FILE_PART_RE_match s).isSome = (claimShape s || claimShapeNl s) := by
  unfold FILE_PART_RE_match claimShape claimShapeNl
  cases hb : braceSplit s with
  | none => simp
  | some tr =>
    obtain ⟨t, r⟩ := tr
    by_cases hu : r.takeWhile (fun c => c != '#') = []
    · simp [hu]
    · simp only [hu, if_neg, if_false]
      cases hw : r.dropWhile (fun c => c != '#') with
      | nil => simp [hu]
      | cons c x =>
        by_cases hc : c = '#'
        · subst hc
          have hfrag := fragParse_isSome x
          cases hf : fragParse x with
          | none =>
            rw [hf] at hfrag
            simp only [Option.isSome_none] at hfrag
            simp [hu, hf, ← hfrag]
          | some d =>
            rw [hf] at hfrag
            simp only [Option.isSome_some] at hfrag
            simp [hu, hf, ← hfrag]
        · cases x with
          | nil => simp [hu, hc]
          | cons c2 x2 => simp [hu, hc]

/-! ## C4: grouping commutes with per-part filtering -/

theorem alookup_append {β : Type} (k : Str) (l1 l2 : List (Str × β)) :
    alookup k (l1 ++ l2) =
      match alookup k l1 with
      | some b => some b
      | none => alookup k l2 := by
  induction l1 with
  | nil => simp [alookup]
  | cons e t ih =>
    by_cases h : e.1 = k
    · simp [alookup, h]
    · simp only [List.cons_append, alookup, if_neg h]
      exact ih

theorem alookup_map_update {β : Type} (k0 : Str) (upd : β → β) (k : Str) :
    ∀ l : List (Str × β),
      alookup k (l.map fun km => if km.1 = k0 then (km.1, upd km.2) else km) =
        if k = k0 then (alookup k l).map upd else alookup k l := by
  intro l
  induction l with
  | nil => simp [alookup]
  | cons e t ih =>
    by_cases h1 : e.1 = k0
    · by_cases h2 : e.1 = k
      · have hk : k0 = k := h1.symm.trans h2
        subst hk
        simp [alookup, h1]
      · simp only [List.map_cons, if_pos h1, alookup, if_neg h2, ih]
    · by_cases h2 : e.1 = k
      · have : ¬(k = k0) := fun hk => h1 (h2.trans hk)
        simp [alookup, h1, h2, this]
      · simp only [List.map_cons, if_neg h1, alookup, if_neg h2, ih]

theorem chaptersOf_addEntry (acc : List (Str × PartMeta)) (e : ChapterMarker) (p : Str) :
    chaptersOf (addEntry acc e) p =
      if p = e.part_name then appendChapter (chaptersOf acc p) e else chaptersOf acc p := by
  unfold addEntry chaptersOf
  simp only
  rw [alookup_map_update e.part_name (updateChapters e) p]
  by_cases hp : p = e.part_name
  · subst hp
    rw [if_pos rfl, if_pos rfl]
    by_cases hs : (alookup e.part_name acc).isSome = true
    · rw [if_pos hs]
      obtain ⟨m, hm⟩ := Option.isSome_iff_exists.mp hs
      rw [hm]
      rfl
    · rw [if_neg hs, alookup_append, Option.not_isSome_iff_eq_none.mp hs]
      simp [alookup, updateChapters, defaultPartMeta, appendChapter]
  · rw [if_neg hp, if_neg hp]
    by_cases hs : (alookup e.part_name acc).isSome = true
    · rw [if_pos hs]
    · rw [if_neg hs, alookup_append]
      have hne : ¬(e.part_name = p) := fun h => hp h.symm
      have h2 : alookup p [(e.part_name, defaultPartMeta)] = none := by
        simp [alookup, hne]
      cases hpa : alookup p acc
      · rw [h2]
      · rfl

theorem chaptersOf_foldl (p : Str) :
    ∀ (es : List ChapterMarker) (acc : List (Str × PartMeta)),
      chaptersOf (es.foldl addEntry acc) p =
        (es.filter fun e => e.part_name = p).foldl appendChapter (chaptersOf acc p) := by
  intro es
  induction es with
  | nil => intro acc; rfl
  | cons e t ih =>
    intro acc
    rw [List.foldl_cons, ih, chaptersOf_addEntry]
    by_cases hp : e.part_name = p
    · rw [if_pos hp.symm]
      simp [List.filter, hp]
    · rw [if_neg fun h => hp h.symm]
      simp [List.filter, hp]

/-! ## C5: end-offset resolution -/

theorem resolveEnds_length (dur : ℚ) :
    ∀ chs : List ChapterMarker, (resolveEnds dur chs).length = chs.length := by
  intro chs
  induction chs with
  | nil => rfl
  | cons c rest ih =>
    cases rest with
    | nil => rfl
    | cons c2 rest2 =>
      rw [resolveEnds]
      simp only [List.length_cons]
      rw [ih]
      simp

theorem resolveEnds_head_start (dur : ℚ) (c : ChapterMarker) (rest : List ChapterMarker)
    (h : 0 < (resolveEnds dur (c :: rest)).length) :
    ((resolveEnds dur (c :: rest)).get ⟨0, h⟩).start_second = c.start_second := by
  cases rest <;> rfl

theorem resolveEnds_end_eq (dur : ℚ) :
    ∀ (chs : List ChapterMarker) (i : Nat) (h : i < (resolveEnds dur chs).length),
      ((resolveEnds dur chs).get ⟨i, h⟩).end_second =
        if h2 : i + 1 < (resolveEnds dur chs).length
        then ((resolveEnds dur chs).get ⟨i + 1, h2⟩).start_second
        else dur := by
  intro chs
  induction chs with
  | nil =>
    intro i h
    simp [resolveEnds] at h
  | cons c rest ih =>
    cases rest with
    | nil =>
      intro i h
      have h1 : (resolveEnds dur [c]).length = 1 := rfl
      have hi : i = 0 := Nat.lt_one_iff.mp (h1 ▸ h)
      subst hi
      rw [dif_neg (by rw [h1]; exact fun hcon => absurd hcon (by norm_num))]
      rfl
    | cons c2 rest2 =>
      intro i h
      have hlen : (resolveEnds dur (c :: c2 :: rest2)).length = rest2.length + 2 := by
        rw [resolveEnds_length]
        rfl
      cases i with
      | zero =>
        have h2 : 0 + 1 < (resolveEnds dur (c :: c2 :: rest2)).length := by
          rw [hlen]; omega
        rw [dif_pos h2]
        have hget0 : ((resolveEnds dur (c :: c2 :: rest2)).get ⟨0, h⟩).end_second =
            c2.start_second := rfl
        rw [hget0]
        have htail : (resolveEnds dur (c :: c2 :: rest2)).get ⟨0 + 1, h2⟩ =
            (resolveEnds dur (c2 :: rest2)).get
              ⟨0, by rw [resolveEnds_length]; exact Nat.succ_pos _⟩ := rfl
        rw [htail, resolveEnds_head_start]
      | succ j =>
        have hj : j < (resolveEnds dur (c2 :: rest2)).length := by
          rw [resolveEnds_length]
          rw [hlen] at h
          simpa using Nat.lt_of_succ_lt_succ h
        have hcons : ∀ (k : Nat) (hk : k < (resolveEnds dur (c2 :: rest2)).length)
            (hk2 : k + 1 < (resolveEnds dur (c :: c2 :: rest2)).length),
            (resolveEnds dur (c :: c2 :: rest2)).get ⟨k + 1, hk2⟩ =
              (resolveEnds dur (c2 :: rest2)).get ⟨k, hk⟩ := by
          intro k hk hk2
          rfl
        rw [hcons j hj h]
        rw [ih j hj]
        by_cases hc : j + 1 < (resolveEnds dur (c2 :: rest2)).length
        · rw [dif_pos hc, dif_pos (by rw [hlen]; rw [resolveEnds_length] at hc; simpa using Nat.succ_lt_succ hc)]
          rw [hcons (j + 1) hc]
        · rw [dif_neg hc, dif_neg (by rw [hlen]; rw [resolveEnds_length] at hc; simp at hc ⊢; omega)]

theorem generated_markers_length (dms : Int) :
    ∀ ms : List (Str × Str × Int), (generated_markers dms ms).length = ms.length := by
  intro ms
  induction ms with
  | nil => rfl
  | cons m rest ih =>
    obtain ⟨i, n, t⟩ := m
    cases rest with
    | nil => rfl
    | cons m2 rest2 =>
      rw [generated_markers]
      simp only [List.length_cons]
      rw [ih]
      simp

theorem generated_markers_end_eq (dms : Int) :
    ∀ (ms : List (Str × Str × Int)) (i : Nat) (h : i < (generated_markers dms ms).length),
      ((generated_markers dms ms).get ⟨i, h⟩).end_time =
        if h2 : i + 1 < ms.length then (ms.get ⟨i + 1, h2⟩).2.2 else dms := by
  intro ms
  induction ms with
  | nil =>
    intro i h
    simp [generated_markers] at h
  | cons m rest ih =>
    obtain ⟨nm, tx, ts⟩ := m
    cases rest with
    | nil =>
      intro i h
      have h1 : (generated_markers dms [(nm, tx, ts)]).length = 1 := rfl
      have hi : i = 0 := Nat.lt_one_iff.mp (h1 ▸ h)
      subst hi
      rw [dif_neg (by norm_num)]
      rfl
    | cons m2 rest2 =>
      intro i h
      cases i with
      | zero =>
        rw [dif_pos (by simp)]
        have : ((generated_markers dms ((nm, tx, ts) :: m2 :: rest2)).get ⟨0, h⟩).end_time =
            m2.2.2 := rfl
        rw [this]
        rfl
      | succ j =>
        have hj : j < (generated_markers dms (m2 :: rest2)).length := by
          rw [generated_markers_length]
          rw [generated_markers_length] at h
          simpa using Nat.lt_of_succ_lt_succ h
        have hcons : (generated_markers dms ((nm, tx, ts) :: m2 :: rest2)).get ⟨j + 1, h⟩ =
            (generated_markers dms (m2 :: rest2)).get ⟨j, hj⟩ := rfl
        rw [hcons, ih j hj]
        by_cases hc : j + 1 < (m2 :: rest2).length
        · rw [dif_pos hc, dif_pos (by simpa using Nat.succ_lt_succ hc)]
          have : ((m2 :: rest2) : List (Str × Str × Int)).get ⟨j + 1, hc⟩ =
              ((nm, tx, ts) :: m2 :: rest2).get ⟨j + 1 + 1, by simpa using Nat.succ_lt_succ hc⟩ := rfl
          rw [this]
        · rw [dif_neg hc, dif_neg (by simp at hc ⊢; omega)]

theorem mem_resolveAllEnds {parts : List (Str × PartMeta)} {km : Str × PartMeta}
    (h : km ∈ resolveAllEnds parts) :
    ∃ m0 : PartMeta, km.2.audio_duration = m0.audio_duration ∧
      km.2.chapters = resolveEnds m0.audio_duration m0.chapters := by
  unfold resolveAllEnds at h
  obtain ⟨km0, _, heq⟩ := List.mem_map.mp h
  refine ⟨km0.2, ?_, ?_⟩
  · rw [← heq]
    rfl
  · rw [← heq]
    rfl

/-! ## `merge_toc`: bridging the prefix-sum loop to its accumulator form -/

theorem enumFrom_fold_eq (full : List PartMeta) :
    ∀ (ps : List PartMeta) (i : Nat) (st : List (Str × ℚ × ℚ)),
      full.drop i = ps →
      (List.enumFrom i ps).foldl
          (fun acc ip => ip.2.chapters.foldl (mergeStep (sumDur (full.take ip.1))) acc) st =
        mergeGo (sumDur (full.take i)) ps st := by
  intro ps
  induction ps with
  | nil =>
    intro i st _
    rfl
  | cons p ps2 ih =>
    intro i st h
    have hget : full[i]? = some p := by
      rw [← List.head?_drop, h]
      rfl
    have hdrop : full.drop (i + 1) = ps2 := by
      rw [← List.drop_drop, h]
      rfl
    have hsum : sumDur (full.take (i + 1)) = sumDur (full.take i) + p.audio_duration := by
      rw [List.take_succ, hget]
      simp [sumDur]
    show (List.enumFrom i (p :: ps2)).foldl _ st = _
    rw [show List.enumFrom i (p :: ps2) = (i, p) :: List.enumFrom (i + 1) ps2 from rfl]
    rw [List.foldl_cons, ih (i + 1) _ hdrop, hsum]
    rfl

theorem merge_toc_eq_mergeGo (toc : List (Str × PartMeta)) :
    merge_toc toc = (mergeGo 0 (toc.map Prod.snd) []).map
      (fun tse => { title := tse.1, part_name := [],
                    start_second := tse.2.1, end_second := tse.2.2 }) := by
  unfold merge_toc
  simp only
  have h := enumFrom_fold_eq (toc.map Prod.snd) (toc.map Prod.snd) 0 [] rfl
  rw [show (toc.map Prod.snd).enum = List.enumFrom 0 (toc.map Prod.snd) from rfl, h]
  rfl

/-! ## `merge_toc`: keys are the first-seen titles (C1) -/

theorem mergeStep_keys (cumu : ℚ) (a : List (Str × ℚ × ℚ)) (m : ChapterMarker) :
    (mergeStep cumu a m).map Prod.fst =
      if m.title ∈ a.map Prod.fst then a.map Prod.fst else a.map Prod.fst ++ [m.title] := by
  unfold mergeStep
  simp only
  have hfst : ∀ e : Str × ℚ × ℚ,
      ((fun e => if e.1 = m.title then (e.1, setEndVal (cumu + m.end_second) e.2) else e) e).1 =
        e.1 := by
    intro e
    by_cases h : e.1 = m.title <;> simp [h]
  by_cases hs : (alookup m.title a).isSome = true
  · rw [if_pos hs, if_pos ((lookup_isSome_iff m.title a).mp hs)]
    rw [List.map_map]
    exact List.map_congr_left fun e _ => hfst e
  · rw [if_neg hs,
        if_neg (fun hmem => hs ((lookup_isSome_iff m.title a).mpr hmem))]
    rw [List.map_map, List.map_append]
    congr 1
    · exact List.map_congr_left fun e _ => hfst e
    · simp

theorem foldl_mergeStep_keys (cumu : ℚ) :
    ∀ (chs : List ChapterMarker) (a : List (Str × ℚ × ℚ)),
      (chs.foldl (mergeStep cumu) a).map Prod.fst =
        (chs.map (·.title)).foldl
          (fun ks t => if t ∈ ks then ks else ks ++ [t]) (a.map Prod.fst) := by
  intro chs
  induction chs with
  | nil => intro a; rfl
  | cons c t ih =>
    intro a
    rw [List.foldl_cons, ih, List.map_cons, List.foldl_cons, mergeStep_keys]

theorem mergeGo_keys :
    ∀ (ps : List PartMeta) (cumu : ℚ) (a : List (Str × ℚ × ℚ)),
      (mergeGo cumu ps a).map Prod.fst =
        (allTitles ps).foldl (fun ks t => if t ∈ ks then ks else ks ++ [t]) (a.map Prod.fst) := by
  intro ps
  induction ps with
  | nil => intro cumu a; rfl
  | cons p ps2 ih =>
    intro cumu a
    rw [show mergeGo cumu (p :: ps2) a =
          mergeGo (cumu + p.audio_duration) ps2 (p.chapters.foldl (mergeStep cumu) a) from rfl]
    rw [ih, foldl_mergeStep_keys]
    rw [show allTitles (p :: ps2) = p.chapters.map (·.title) ++ allTitles ps2 by
      simp [allTitles]]
    rw [List.foldl_append]

/-! ## `merge_toc`: distinct titles give plain offset-concatenation (C3, C7) -/

theorem foldl_mergeStep_disjoint (cumu : ℚ) :
    ∀ (chs : List ChapterMarker) (a : List (Str × ℚ × ℚ)),
      (∀ c ∈ chs, c.title ∉ a.map Prod.fst) →
      (chs.map (·.title)).Nodup →
      chs.foldl (mergeStep cumu) a =
        a ++ chs.map (fun c => (c.title, (cumu + c.start_second, cumu + c.end_second))) := by
  intro chs
  induction chs with
  | nil =>
    intro a _ _
    simp
  | cons c t ih =>
    intro a hdisj hnodup
    have hstep : mergeStep cumu a c =
        a ++ [(c.title, (cumu + c.start_second, cumu + c.end_second))] := by
      unfold mergeStep
      simp only
      have hc : c.title ∉ a.map Prod.fst := hdisj c (by simp)
      have hs : ¬((alookup c.title a).isSome = true) := fun h =>
        hc ((lookup_isSome_iff c.title a).mp h)
      rw [if_neg hs, List.map_append]
      congr 1
      · have hid : List.map
            (fun e => if e.1 = c.title then (e.1, setEndVal (cumu + c.end_second) e.2) else e) a =
            List.map id a := by
          refine List.map_congr_left fun e he => ?_
          have hne : ¬(e.1 = c.title) := fun h =>
            hc (h ▸ List.mem_map_of_mem Prod.fst he)
          simp [hne]
        rw [hid, List.map_id]
      · simp [setEndVal]
    rw [List.foldl_cons, hstep]
    rw [ih (a ++ [(c.title, (cumu + c.start_second, cumu + c.end_second))])]
    · simp
    · intro c2 hc2
      rw [List.map_append]
      simp only [List.mem_append]
      rintro (h1 | h2)
      · exact hdisj c2 (by simp [hc2]) h1
      · simp at h2
        rw [List.map_cons, List.nodup_cons] at hnodup
        have : c.title ∈ t.map (fun m => m.title) := by
          rw [← h2]
          exact List.mem_map_of_mem _ hc2
        exact hnodup.1 this
    · rw [List.map_cons, List.nodup_cons] at hnodup
      exact hnodup.2

theorem mergeGo_disjoint :
    ∀ (ps : List PartMeta) (cumu : ℚ) (a : List (Str × ℚ × ℚ)),
      (∀ t ∈ allTitles ps, t ∉ a.map Prod.fst) →
      (allTitles ps).Nodup →
      mergeGo cumu ps a = a ++ offsetEntries cumu ps := by
  intro ps
  induction ps with
  | nil =>
    intro cumu a _ _
    simp [mergeGo, offsetEntries]
  | cons p ps2 ih =>
    intro cumu a hdisj hnodup
    have hsplit : allTitles (p :: ps2) = p.chapters.map (·.title) ++ allTitles ps2 := by
      simp [allTitles]
    rw [hsplit] at hdisj hnodup
    have hnd1 : (p.chapters.map (·.title)).Nodup := (List.nodup_append.mp hnodup).1
    have hnd2 : (allTitles ps2).Nodup := (List.nodup_append.mp hnodup).2.1
    have hcross : ∀ t ∈ p.chapters.map (·.title), t ∉ allTitles ps2 := by
      intro t ht
      exact fun h2 => ((List.nodup_append.mp hnodup).2.2) ht h2
    rw [show mergeGo cumu (p :: ps2) a =
          mergeGo (cumu + p.audio_duration) ps2 (p.chapters.foldl (mergeStep cumu) a) from rfl]
    rw [foldl_mergeStep_disjoint cumu p.chapters a
          (fun c hc => hdisj c.title (List.mem_append_left _ (List.mem_map_of_mem _ hc)))
          hnd1]
    rw [ih (cumu + p.audio_duration) _ ?_ hnd2]
    · rw [offsetEntries, List.append_assoc]
    · intro t2 ht2
      rw [List.map_append]
      simp only [List.mem_append]
      rintro (h1 | h2)
      · exact hdisj t2 (List.mem_append_right _ ht2) h1
      · have h3 : t2 ∈ p.chapters.map (fun m => m.title) := by
          simpa [List.map_map, Function.comp] using h2
        exact hcross t2 h3 ht2

/-! ## `merge_toc`: where every merged start comes from (C3) -/

theorem mergeStep_mem (cumu : ℚ) (a : List (Str × ℚ × ℚ)) (m : ChapterMarker)
    (e : Str × ℚ × ℚ) (he : e ∈ mergeStep cumu a m) :
    (∃ v, (e.1, (e.2.1, v)) ∈ a) ∨ (e.1 = m.title ∧ e.2.1 = cumu + m.start_second) := by
  unfold mergeStep at he
  simp only at he
  obtain ⟨e0, he0, heq⟩ := List.mem_map.mp he
  have hfst : e.1 = e0.1 ∧ e.2.1 = e0.2.1 := by
    by_cases h : e0.1 = m.title <;> simp [← heq, h, setEndVal]
  have he0m : e0 ∈ (if (alookup m.title a).isSome = true then a
      else a ++ [(m.title, (cumu + m.start_second, 0))]) := he0
  by_cases hs : (alookup m.title a).isSome = true
  · rw [if_pos hs] at he0m
    exact Or.inl ⟨e0.2.2, by rw [hfst.1, hfst.2]; exact he0m⟩
  · rw [if_neg hs] at he0m
    rcases List.mem_append.mp he0m with h1 | h2
    · exact Or.inl ⟨e0.2.2, by rw [hfst.1, hfst.2]; exact h1⟩
    · simp only [List.mem_singleton] at h2
      refine Or.inr ⟨?_, ?_⟩
      · rw [hfst.1, h2]
      · rw [hfst.2, h2]

theorem foldl_mergeStep_mem (cumu : ℚ) :
    ∀ (chs : List ChapterMarker) (a : List (Str × ℚ × ℚ)) (e : Str × ℚ × ℚ),
      e ∈ chs.foldl (mergeStep cumu) a →
      (∃ v, (e.1, (e.2.1, v)) ∈ a) ∨
        ∃ c ∈ chs, c.title = e.1 ∧ e.2.1 = cumu + c.start_second := by
  intro chs
  induction chs with
  | nil =>
    intro a e he
    exact Or.inl ⟨e.2.2, he⟩
  | cons c t ih =>
    intro a e he
    rw [List.foldl_cons] at he
    rcases ih (mergeStep cumu a c) e he with ⟨v, hv⟩ | ⟨c2, hc2, hteq, hseq⟩
    · rcases mergeStep_mem cumu a c _ hv with ⟨v2, hv2⟩ | ⟨hteq, hseq⟩
      · exact Or.inl ⟨v2, hv2⟩
      · exact Or.inr ⟨c, by simp, hteq.symm, hseq⟩
    · exact Or.inr ⟨c2, by simp [hc2], hteq, hseq⟩

theorem mergeGo_mem :
    ∀ (ps : List PartMeta) (cumu : ℚ) (a : List (Str × ℚ × ℚ)) (e : Str × ℚ × ℚ),
      e ∈ mergeGo cumu ps a →
      (∃ v, (e.1, (e.2.1, v)) ∈ a) ∨
        ∃ j, ∃ hj : j < ps.length, ∃ c ∈ (ps.get ⟨j, hj⟩).chapters,
          c.title = e.1 ∧ e.2.1 = cumu + sumDur (ps.take j) + c.start_second := by
  intro ps
  induction ps with
  | nil =>
    intro cumu a e he
    exact Or.inl ⟨e.2.2, he⟩
  | cons p ps2 ih =>
    intro cumu a e he
    rw [show mergeGo cumu (p :: ps2) a =
          mergeGo (cumu + p.audio_duration) ps2 (p.chapters.foldl (mergeStep cumu) a) from rfl]
      at he
    rcases ih (cumu + p.audio_duration) _ e he with ⟨v, hv⟩ | ⟨j, hj, c, hc, hteq, hseq⟩
    · rcases foldl_mergeStep_mem cumu p.chapters a _ hv with ⟨v2, hv2⟩ | ⟨c, hc, hteq, hseq⟩
      · exact Or.inl ⟨v2, hv2⟩
      · refine Or.inr ⟨0, by simp, c, hc, hteq, ?_⟩
        rw [hseq]
        show cumu + c.start_second = cumu + sumDur ((p :: ps2).take 0) + c.start_second
        simp [sumDur]
    · refine Or.inr ⟨j + 1, by simpa using Nat.succ_lt_succ hj, c, hc, hteq, ?_⟩
      rw [hseq]
      show cumu + p.audio_duration + sumDur (ps2.take j) + c.start_second =
        cumu + sumDur ((p :: ps2).take (j + 1)) + c.start_second
      rw [show (p :: ps2).take (j + 1) = p :: ps2.take j from rfl]
      simp [sumDur]
      ring

/-! ## Chaining and monotonicity lemmas for the merged timeline (C7) -/

theorem endsChained_offset (cumu : ℚ) :
    ∀ (chs : List ChapterMarker) (dur : ℚ), endsChained chs dur →
      endsChained (chs.map (offsetMarker cumu)) (cumu + dur) := by
  intro chs
  induction chs with
  | nil =>
    intro dur _
    exact trivial
  | cons c t ih =>
    intro dur h
    cases t with
    | nil =>
      rw [endsChained] at h
      show (offsetMarker cumu c).end_second = cumu + dur
      rw [offsetMarker, h]
    | cons c2 t2 =>
      rw [endsChained] at h
      refine ⟨?_, ih dur h.2⟩
      show (offsetMarker cumu c).end_second = (offsetMarker cumu c2).start_second
      rw [offsetMarker, offsetMarker, h.1]

theorem startsMono_offset (cumu : ℚ) :
    ∀ chs : List ChapterMarker, startsMono chs →
      startsMono (chs.map (offsetMarker cumu)) := by
  intro chs
  induction chs with
  | nil =>
    intro _
    exact trivial
  | cons c t ih =>
    intro h
    cases t with
    | nil => exact trivial
    | cons c2 t2 =>
      rw [startsMono] at h
      exact ⟨by simpa [offsetMarker] using h.1, ih h.2⟩

theorem chain_mono :
    ∀ (chs : List ChapterMarker) (dur : ℚ), endsChained chs dur →
      (∀ c ∈ chs, c.start_second ≤ c.end_second) → startsMono chs := by
  intro chs
  induction chs with
  | nil =>
    intro dur _ _
    exact trivial
  | cons c t ih =>
    intro dur h hle
    cases t with
    | nil => exact trivial
    | cons c2 t2 =>
      rw [endsChained] at h
      refine ⟨?_, ih dur h.2 fun x hx => hle x (by simp [hx])⟩
      calc c.start_second ≤ c.end_second := hle c (by simp)
        _ = c2.start_second := h.1

theorem chain_start_le :
    ∀ (chs : List ChapterMarker) (dur : ℚ), endsChained chs dur →
      (∀ c ∈ chs, c.start_second ≤ c.end_second) →
      ∀ c ∈ chs, c.start_second ≤ dur := by
  intro chs
  induction chs with
  | nil =>
    intro dur _ _ c hc
    cases hc
  | cons c t ih =>
    intro dur h hle c2 hc2
    cases t with
    | nil =>
      rw [endsChained] at h
      rcases List.mem_singleton.mp hc2 with rfl
      calc c2.start_second ≤ c2.end_second := hle c2 (by simp)
        _ = dur := h
    | cons c3 t2 =>
      rw [endsChained] at h
      rcases List.mem_cons.mp hc2 with rfl | hmem
      · calc c2.start_second ≤ c2.end_second := hle c2 (by simp)
          _ = c3.start_second := h.1
          _ ≤ dur := ih dur h.2 (fun x hx => hle x (by simp [hx])) c3 (by simp)
      · exact ih dur h.2 (fun x hx => hle x (by simp [hx])) c2 hmem

theorem endsChained_append :
    ∀ (A : List ChapterMarker) (b : ChapterMarker) (B' : List ChapterMarker) (total : ℚ),
      endsChained A b.start_second → endsChained (b :: B') total →
      endsChained (A ++ b :: B') total := by
  intro A
  induction A with
  | nil =>
    intro b B' total _ hB
    exact hB
  | cons a t ih =>
    intro b B' total hA hB
    cases t with
    | nil =>
      rw [endsChained] at hA
      exact ⟨hA, hB⟩
    | cons a2 t2 =>
      rw [endsChained] at hA
      exact ⟨hA.1, ih b B' total hA.2 hB⟩

theorem startsMono_append :
    ∀ (A : List ChapterMarker) (b : ChapterMarker) (B' : List ChapterMarker),
      startsMono A → startsMono (b :: B') →
      (∀ c ∈ A, c.start_second ≤ b.start_second) →
      startsMono (A ++ b :: B') := by
  intro A
  induction A with
  | nil =>
    intro b B' _ hB _
    exact hB
  | cons a t ih =>
    intro b B' hA hB hle
    cases t with
    | nil => exact ⟨hle a (by simp), hB⟩
    | cons a2 t2 =>
      rw [startsMono] at hA
      exact ⟨hA.1, ih b B' hA.2 hB fun c hc => hle c (by simp [hc])⟩

theorem sumDur_cons (p : PartMeta) (ps : List PartMeta) :
    sumDur (p :: ps) = p.audio_duration + sumDur ps := by
  simp [sumDur]

theorem offsetEntries_map :
    ∀ (ps : List PartMeta) (cumu : ℚ),
      (offsetEntries cumu ps).map
          (fun tse => ({ title := tse.1, part_name := [], start_second := tse.2.1,
                         end_second := tse.2.2 } : ChapterMarker)) =
        offsetMerged cumu ps := by
  intro ps
  induction ps with
  | nil =>
    intro cumu
    rfl
  | cons p ps2 ih =>
    intro cumu
    rw [offsetEntries, offsetMerged, List.map_append, ih, List.map_map]
    congr 1

theorem merge_toc_offsetMerged (toc : List (Str × PartMeta))
    (h : (allTitles (toc.map Prod.snd)).Nodup) :
    merge_toc toc = offsetMerged 0 (toc.map Prod.snd) := by
  rw [merge_toc_eq_mergeGo, mergeGo_disjoint _ 0 [] (by simp) h, List.nil_append,
      offsetEntries_map]

theorem offsetMerged_invariant :
    ∀ (ps : List PartMeta) (cumu : ℚ),
      ps ≠ [] →
      (∀ p ∈ ps, validPart p) →
      endsChained (offsetMerged cumu ps) (cumu + sumDur ps) ∧
      startsMono (offsetMerged cumu ps) ∧
      ∃ b B', offsetMerged cumu ps = b :: B' ∧ b.start_second = cumu := by
  intro ps
  induction ps with
  | nil =>
    intro cumu hne _
    exact absurd rfl hne
  | cons p ps2 ih =>
    intro cumu _ hvalid
    obtain ⟨hne, hchain, hfirst, hle⟩ := hvalid p (by simp)
    obtain ⟨c0, cr, hchs⟩ := List.exists_cons_of_ne_nil hne
    have hc0 : c0.start_second = 0 := hfirst c0 (by rw [hchs]; rfl)
    have chainA : endsChained (p.chapters.map (offsetMarker cumu)) (cumu + p.audio_duration) :=
      endsChained_offset cumu p.chapters p.audio_duration hchain
    have monoA : startsMono (p.chapters.map (offsetMarker cumu)) :=
      startsMono_offset cumu p.chapters (chain_mono p.chapters p.audio_duration hchain hle)
    have leA : ∀ c ∈ p.chapters.map (offsetMarker cumu),
        c.start_second ≤ cumu + p.audio_duration := by
      intro c hc
      obtain ⟨c1, hc1, hceq⟩ := List.mem_map.mp hc
      rw [← hceq]
      show cumu + c1.start_second ≤ cumu + p.audio_duration
      exact add_le_add_left (chain_start_le p.chapters p.audio_duration hchain hle c1 hc1) cumu
    have headA : p.chapters.map (offsetMarker cumu) =
        offsetMarker cumu c0 :: cr.map (offsetMarker cumu) := by
      rw [hchs, List.map_cons]
    have hstart0 : (offsetMarker cumu c0).start_second = cumu := by
      show cumu + c0.start_second = cumu
      rw [hc0, add_zero]
    cases ps2 with
    | nil =>
      have hofs : offsetMerged cumu [p] = p.chapters.map (offsetMarker cumu) := by
        rw [offsetMerged, offsetMerged, List.append_nil]
      have htotal : cumu + sumDur [p] = cumu + p.audio_duration := by
        rw [sumDur_cons]
        show cumu + (p.audio_duration + sumDur []) = cumu + p.audio_duration
        rw [show sumDur [] = 0 from rfl, add_zero]
      refine ⟨?_, ?_, ?_⟩
      · rw [hofs, htotal]
        exact chainA
      · rw [hofs]
        exact monoA
      · exact ⟨offsetMarker cumu c0, cr.map (offsetMarker cumu),
          by rw [hofs, headA], hstart0⟩
    | cons p2 ps3 =>
      obtain ⟨chainB, monoB, b, B', hB, hbstart⟩ :=
        ih (cumu + p.audio_duration) (by simp) (fun q hq => hvalid q (by simp [hq]))
      have hofs : offsetMerged cumu (p :: p2 :: ps3) =
          p.chapters.map (offsetMarker cumu) ++ offsetMerged (cumu + p.audio_duration) (p2 :: ps3) :=
        rfl
      have htotal : cumu + sumDur (p :: p2 :: ps3) =
          cumu + p.audio_duration + sumDur (p2 :: ps3) := by
        rw [sumDur_cons]
        ring
      refine ⟨?_, ?_, ?_⟩
      · rw [hofs, hB, htotal]
        refine endsChained_append _ b B' _ ?_ (hB ▸ chainB)
        rw [hbstart]
        exact chainA
      · rw [hofs, hB]
        refine startsMono_append _ b B' monoA (hB ▸ monoB) ?_
        intro c hc
        rw [hbstart]
        exact leA c hc
      · refine ⟨offsetMarker cumu c0,
          cr.map (offsetMarker cumu) ++ offsetMerged (cumu + p.audio_duration) (p2 :: ps3),
          ?_, hstart0⟩
        rw [hofs, headA, List.cons_append]

/-! ## C2: evaluating the timestamp parser on `HH:MM:SS.mmm` inputs -/

set_option maxRecDepth 4000

theorem pad2_digits : ∀ n < 100, ∀ c ∈ pad2 n, c.isDigit = true := by decide

theorem pad3_digits : ∀ n < 1000, ∀ c ∈ pad3 n, c.isDigit = true := by decide

theorem hourField_pad2_ok : ∀ n < 24, hourField (pad2 n) = true := by decide

theorem hourField_pad2_no : ∀ n < 100, 24 ≤ n → hourField (pad2 n) = false := by decide

theorem minuteField_pad2_ok : ∀ n < 60, minuteField (pad2 n) = true := by decide

theorem minuteField_pad2_no : ∀ n < 100, 60 ≤ n → minuteField (pad2 n) = false := by decide

theorem secondField_pad2_ok : ∀ n < 62, secondField (pad2 n) = true := by decide

theorem natVal_pad2 : ∀ n < 100, natVal (pad2 n) = n := by decide

theorem natVal_pad3 : ∀ n < 1000, natVal (pad3 n) = n := by decide

/-- The maximal digit runs of a formatted `HH:MM:SS.mmm` string. -/
theorem fmtHMS_spans (h m s ms : Nat) (hh : h ≤ 99) (hm : m ≤ 99) (hs : s ≤ 99)
    (hms : ms ≤ 999) :
    ((fmtHMS h m s ms).takeWhile Char.isDigit = pad2 h ∧
      (fmtHMS h m s ms).dropWhile Char.isDigit =
        ':' :: (pad2 m ++ ':' :: (pad2 s ++ '.' :: pad3 ms))) ∧
    ((pad2 m ++ ':' :: (pad2 s ++ '.' :: pad3 ms)).takeWhile Char.isDigit = pad2 m ∧
      (pad2 m ++ ':' :: (pad2 s ++ '.' :: pad3 ms)).dropWhile Char.isDigit =
        ':' :: (pad2 s ++ '.' :: pad3 ms)) ∧
    ((pad2 s ++ '.' :: pad3 ms).takeWhile Char.isDigit = pad2 s ∧
      (pad2 s ++ '.' :: pad3 ms).dropWhile Char.isDigit = '.' :: pad3 ms) ∧
    ((pad3 ms).takeWhile Char.isDigit = pad3 ms ∧
      (pad3 ms).dropWhile Char.isDigit = []) := by
  have dh := pad2_digits h (by omega)
  have dm := pad2_digits m (by omega)
  have ds := pad2_digits s (by omega)
  have dms := pad3_digits ms (by omega)
  have hcolon : Char.isDigit ':' = false := rfl
  have hdot : Char.isDigit '.' = false := rfl
  refine ⟨⟨?_, ?_⟩, ⟨?_, ?_⟩, ⟨?_, ?_⟩, ?_, ?_⟩
  · exact takeWhile_append_stop _ (pad2 h) ':' _ dh hcolon
  · exact dropWhile_append_stop _ (pad2 h) ':' _ dh hcolon
  · exact takeWhile_append_stop _ (pad2 m) ':' _ dm hcolon
  · exact dropWhile_append_stop _ (pad2 m) ':' _ dm hcolon
  · exact takeWhile_append_stop _ (pad2 s) '.' _ ds hdot
  · exact dropWhile_append_stop _ (pad2 s) '.' _ ds hdot
  · exact takeWhile_all_eq _ (pad3 ms) dms
  · exact dropWhile_all_eq _ (pad3 ms) dms

theorem strptime_MSf_fmtHMS (h m s ms : Nat) (hh : h ≤ 99) (hm : m ≤ 99) (hs : s ≤ 99)
    (hms : ms ≤ 999) :
    strptime_MSf (fmtHMS h m s ms) = none := by
  obtain ⟨⟨t1, d1⟩, ⟨t2, d2⟩, _, _⟩ := fmtHMS_spans h m s ms hh hm hs hms
  unfold strptime_MSf
  rw [t1, d1]
  by_cases hmf : minuteField (pad2 h) = true
  · simp only [hmf, if_true, t2, d2]
    rfl
  · simp only [Bool.not_eq_true] at hmf
    simp [hmf]

theorem strptime_HMSf_fmtHMS_ok (h m s ms : Nat) (hh : h ≤ 23) (hm : m ≤ 59) (hs : s ≤ 61)
    (hms : ms ≤ 999) :
    strptime_HMSf (fmtHMS h m s ms) = some (h, m, s) := by
  obtain ⟨⟨t1, d1⟩, ⟨t2, d2⟩, ⟨t3, d3⟩, t4, d4⟩ :=
    fmtHMS_spans h m s ms (by omega) (by omega) (by omega) hms
  unfold strptime_HMSf
  rw [t1, d1]
  simp only [hourField_pad2_ok h (by omega), if_true, t2, d2]
  simp only [minuteField_pad2_ok m (by omega), if_true, t3, d3]
  simp only [secondField_pad2_ok s (by omega), if_true, t4, d4]
  simp only [show (pad3 ms).length = 3 from rfl]
  norm_num
  rw [natVal_pad2 h (by omega), natVal_pad2 m (by omega), natVal_pad2 s (by omega)]
  exact ⟨rfl, rfl, rfl⟩

theorem strptime_HMSf_fmtHMS_no (h m s ms : Nat) (hh1 : 24 ≤ h) (hh2 : h ≤ 99) (hm : m ≤ 99)
    (hs : s ≤ 99) (hms : ms ≤ 999) :
    strptime_HMSf (fmtHMS h m s ms) = none := by
  obtain ⟨⟨t1, d1⟩, _, _, _⟩ := fmtHMS_spans h m s ms hh2 hm hs hms
  unfold strptime_HMSf
  rw [t1, d1]
  simp [hourField_pad2_no h (by omega) hh1]

theorem MARKER_HHMMSS_fmtHMS (h m s ms : Nat) (hh : h ≤ 99) (hm : m ≤ 99) (hs : s ≤ 99)
    (hms : ms ≤ 999) :
    MARKER_TIMESTAMP_HHMMSS_match (fmtHMS h m s ms) = some (h, m, s, ms) := by
  obtain ⟨⟨t1, d1⟩, ⟨t2, d2⟩, ⟨t3, d3⟩, t4, d4⟩ := fmtHMS_spans h m s ms hh hm hs hms
  unfold MARKER_TIMESTAMP_HHMMSS_match
  rw [t1, d1]
  simp only [show pad2 h ≠ [] from by simp [pad2], if_neg, t2, d2]
  simp only [show pad2 m ≠ [] from by simp [pad2], t3, d3]
  simp only [show pad2 s ≠ [] from by simp [pad2], t4, d4]
  simp only [show pad3 ms ≠ [] from by simp [pad3]]
  simp [natVal_pad2 h (by omega), natVal_pad2 m (by omega), natVal_pad2 s (by omega),
    natVal_pad3 ms (by omega)]

/-! ## C8 helper: parts created by grouping keep the default spine fields -/

theorem groupParts_zero_fields :
    ∀ (es : List ChapterMarker) (acc : List (Str × PartMeta)),
      (∀ km ∈ acc, km.2.url = [] ∧ km.2.audio_duration = 0 ∧ km.2.file_length = 0 ∧
        km.2.spine_position = 0) →
      ∀ km ∈ es.foldl addEntry acc,
        km.2.url = [] ∧ km.2.audio_duration = 0 ∧ km.2.file_length = 0 ∧
          km.2.spine_position = 0 := by
  intro es
  induction es with
  | nil =>
    intro acc hacc
    exact hacc
  | cons e t ih =>
    intro acc hacc
    rw [List.foldl_cons]
    refine ih _ ?_
    intro km hkm
    unfold addEntry at hkm
    simp only at hkm
    obtain ⟨km0, hkm0, heq⟩ := List.mem_map.mp hkm
    have hbase : km0.2.url = [] ∧ km0.2.audio_duration = 0 ∧ km0.2.file_length = 0 ∧
        km0.2.spine_position = 0 := by
      by_cases hs : (alookup e.part_name acc).isSome = true
      · rw [if_pos hs] at hkm0
        exact hacc km0 hkm0
      · rw [if_neg hs] at hkm0
        rcases List.mem_append.mp hkm0 with h1 | h1
        · exact hacc km0 h1
        · simp only [List.mem_singleton] at h1
          rw [h1]
          exact ⟨rfl, rfl, rfl, rfl⟩
    rw [← heq]
    by_cases hif : km0.1 = e.part_name
    · simp only [hif, if_true]
      simpa [updateChapters] using hbase
    · simp only [hif, if_false]
      exact hbase

/-! ## The claims -/

/-- C10: the identifier parser accepts a path exactly when it has the
brace-delimited 36-character `A-F0-9-` token, at least one non-`#`
character, and an optional `#`-fragment that is an unsigned decimal
number with nothing after — except that the code also tolerates a single
trailing newline after the fragment (Python `$` semantics), which is the
amendment forced by `C10_counterexample`. -/
theorem C10_amended :
    ∀ s : Str, (FILE_PART_RE_match s).isSome = (claimShape s || claimShapeNl s) :=
  FILE_PART_RE_isSome_eq

/-- C10 counterexample: the path `{…36…}p1#5` followed by one newline is
accepted by `FILE_PART_RE` although the claimed shape (nothing after the
fragment) rejects it. -/
theorem C10_counterexample :
    (FILE_PART_RE_match pathNl).isSome = true ∧ claimShape pathNl = false := by
  decide

/-- C9 counterexample: on empty TOC and spine, `parse_toc` returns an
empty mapping — no `EmptyMarkerSet` error is raised (no such error exists
in the code), contradicting the claim that an error is reported. -/
theorem C9_counterexample : parse_toc ujId [] [] [] = .ok [] := rfl

/-- C9 amended: empty TOC and spine yield an empty (error-free) part
mapping; the result simply contains no chapter data. -/
theorem C9_amended :
    ∀ (uj : Str → Str → Str) (base : Str), parse_toc uj base [] [] = .ok [] :=
  fun _ _ => rfl

/-- C2 counterexample: for `(h,m,s,ms) = (0,0,1,500)` (with `m,s < 60`),
the embedded-marker timestamp parser returns 1000 ms, not the claimed
`h*3600000 + m*60000 + s*1000 + ms = 1500`: the strict `strptime` path
parses `%f` but `struct_time` drops the fraction. -/
theorem C2_counterexample :
    parse_marker_timestamp (fmtHMS 0 0 1 500) = some 1000 ∧
      (1000 : Nat) ≠ 0 * 3600000 + 0 * 60000 + 1 * 1000 + 500 := by
  decide

/-- C2 amended: for `h ≤ 23`, `m < 60`, `s ≤ 61` (Python's `%S` accepts
leap seconds 60-61, so `s = 60` does NOT fall back to the permissive
regex) and `ms ≤ 999`, parsing the formatted `HH:MM:SS.mmm` string yields
`(h*3600 + m*60 + s) * 1000` — the millisecond field is discarded by the
strict path.  The permissive fallback is reached only when the strict
shapes fail, e.g. for `24 ≤ h ≤ 99`, and then yields the full
`h*3600000 + m*60000 + s*1000 + ms`. -/
theorem C2_amended :
    ∀ h m s ms : Nat,
      (h ≤ 23 → m ≤ 59 → s ≤ 61 → ms ≤ 999 →
        parse_marker_timestamp (fmtHMS h m s ms) = some ((h * 3600 + m * 60 + s) * 1000)) ∧
      (24 ≤ h → h ≤ 99 → m ≤ 59 → s ≤ 59 → ms ≤ 999 →
        parse_marker_timestamp (fmtHMS h m s ms) =
          some (h * 3600000 + m * 60000 + s * 1000 + ms)) := by
  intro h m s ms
  constructor
  · intro hh hm hs hms
    unfold parse_marker_timestamp
    rw [strptime_MSf_fmtHMS h m s ms (by omega) (by omega) (by omega) hms]
    rw [strptime_HMSf_fmtHMS_ok h m s ms hh hm hs hms]
  · intro hh1 hh2 hm hs hms
    unfold parse_marker_timestamp
    rw [strptime_MSf_fmtHMS h m s ms hh2 (by omega) (by omega) hms]
    rw [strptime_HMSf_fmtHMS_no h m s ms hh1 hh2 (by omega) (by omega) hms]
    rw [MARKER_HHMMSS_fmtHMS h m s ms hh2 (by omega) (by omega) hms]

/-- C2 witness: the amended statement evaluated at `01:02:03.004` (strict
path, fraction dropped) and `30:01:02.003` (fallback path, full sum). -/
theorem C2_witness :
    parse_marker_timestamp (fmtHMS 1 2 3 4) = some ((1 * 3600 + 2 * 60 + 3) * 1000) ∧
    parse_marker_timestamp (fmtHMS 30 1 2 3) =
      some (30 * 3600000 + 1 * 60000 + 2 * 1000 + 3) :=
  ⟨(C2_amended 1 2 3 4).1 (by decide) (by decide) (by decide) (by decide),
   (C2_amended 30 1 2 3).2 (by decide) (by decide) (by decide) (by decide) (by decide)⟩

/-- C4: in the API-sourced builder, each part-group's chapter list is the
adjacent de-duplication of that part's entries (first marker kept, a later
marker dropped iff its title equals the last kept marker's title); the
spec's `{A}` stands for a valid 36-character brace token.  Example 1:
entries `("Ch1",{A}p1)`, `("Ch1",{A}p1#5)`, `("Ch2",{A}p1#5)` with spine
duration 10 give exactly `Ch1 [0,5)`, `Ch2 [5,10)`.  Example 2:
non-adjacent repeats `("A",{A}p1)`, `("B",{A}p1#2)`, `("A",{A}p1#4)` are
all preserved. -/
theorem C4_adjacent_dedup :
    (∀ (es : List ChapterMarker) (p : Str),
      chaptersOf (groupParts es) p = adjDedup (es.filter fun e => e.part_name = p)) ∧
    parse_toc ujId [] tocEx1 spineEx1 = .ok
      [(pnA,
        { chapters := [{ title := strL "Ch1", part_name := pnA,
                         start_second := 0, end_second := 5 },
                       { title := strL "Ch2", part_name := pnA,
                         start_second := 5, end_second := 10 }],
          url := strL "part1.mp3", audio_duration := 10, file_length := 123,
          spine_position := 0 })] ∧
    parse_toc ujId [] tocEx2 spineEx1 = .ok
      [(pnA,
        { chapters := [{ title := strL "A", part_name := pnA,
                         start_second := 0, end_second := 2 },
                       { title := strL "B", part_name := pnA,
                         start_second := 2, end_second := 4 },
                       { title := strL "A", part_name := pnA,
                         start_second := 4, end_second := 10 }],
          url := strL "part1.mp3", audio_duration := 10, file_length := 123,
          spine_position := 0 })] := by
  refine ⟨?_, by decide, by decide⟩
  intro es p
  exact chaptersOf_foldl p es []

/-- C1: the merged timeline contains one entry per distinct title, in
first-seen order — a marker whose title was already seen (anywhere earlier
in the merge) inserts no new entry — and re-seeing a title updates the
existing entry's end to the current cumulative offset plus the marker's
end: merging part 1 (duration 100, chapters `[("Intro",0,100)]`) with
part 2 whose chapter list has "Intro" at relative `[0,10)` yields the
single entry `("Intro", 0, 110)`. -/
theorem C1_title_collision :
    (∀ toc : List (Str × PartMeta),
      (merge_toc toc).map (fun c => c.title) =
        firstSeenTitles (allTitles (toc.map Prod.snd))) ∧
    merge_toc [(strL "p1", introPart), (strL "p2", introAgainPart)] =
      [{ title := strL "Intro", part_name := [], start_second := 0, end_second := 110 }] := by
  constructor
  · intro toc
    rw [merge_toc_eq_mergeGo, List.map_map]
    rw [show ((fun c : ChapterMarker => c.title) ∘
          (fun tse : Str × ℚ × ℚ =>
            ({ title := tse.1, part_name := [], start_second := tse.2.1,
               end_second := tse.2.2 } : ChapterMarker))) = Prod.fst from rfl]
    rw [mergeGo_keys (toc.map Prod.snd) 0 []]
    rfl
  · norm_num [merge_toc, mergeStep, sumDur, alookup, setEndVal, strL, introPart,
      introAgainPart, List.enum, List.enumFrom, List.foldl]

/-- C3: every merged marker's start is the cumulative declared duration of
the preceding parts plus the originating marker's intra-part start; and
merging part 1 (duration 100, `[("Intro",0,100)]`) with part 2 (duration
50, `[("Ch1",0,50)]`) yields `[("Intro",0,100), ("Ch1",100,150)]`. -/
theorem C3_cumulative_offsets :
    (∀ (toc : List (Str × PartMeta)) (e : ChapterMarker), e ∈ merge_toc toc →
      ∃ j, ∃ hj : j < (toc.map Prod.snd).length,
        ∃ c ∈ ((toc.map Prod.snd).get ⟨j, hj⟩).chapters,
          c.title = e.title ∧
          e.start_second = sumDur ((toc.map Prod.snd).take j) + c.start_second) ∧
    merge_toc tocEx13 =
      [{ title := strL "Intro", part_name := [], start_second := 0, end_second := 100 },
       { title := strL "Ch1", part_name := [], start_second := 100, end_second := 150 }] := by
  constructor
  · intro toc e he
    rw [merge_toc_eq_mergeGo] at he
    obtain ⟨tse, htse, heq⟩ := List.mem_map.mp he
    rcases mergeGo_mem (toc.map Prod.snd) 0 [] tse htse with ⟨v, hv⟩ | ⟨j, hj, c, hc, hteq, hseq⟩
    · exact absurd hv (List.not_mem_nil _)
    · refine ⟨j, hj, c, hc, ?_, ?_⟩
      · rw [← heq]
        exact hteq
      · rw [← heq]
        show tse.2.1 = sumDur ((toc.map Prod.snd).take j) + c.start_second
        rw [hseq]
        ring
  · norm_num [merge_toc, tocEx13, mergeStep, sumDur, alookup, setEndVal, strL, introPart,
      ch1Part, List.enum, List.enumFrom, List.foldl]
    decide

/-- C3 witness: the start-origin property instantiated on the example
merge at the marker `("Ch1", 100, 150)`. -/
theorem C3_witness :
    ∃ j, ∃ hj : j < (tocEx13.map Prod.snd).length,
      ∃ c ∈ ((tocEx13.map Prod.snd).get ⟨j, hj⟩).chapters,
        c.title = ({ title := strL "Ch1", part_name := [], start_second := 100,
                     end_second := 150 } : ChapterMarker).title ∧
        ({ title := strL "Ch1", part_name := [], start_second := 100,
           end_second := 150 } : ChapterMarker).start_second =
          sumDur ((tocEx13.map Prod.snd).take j) + c.start_second := by
  refine C3_cumulative_offsets.1 tocEx13
    { title := strL "Ch1", part_name := [], start_second := 100, end_second := 150 } ?_
  rw [C3_cumulative_offsets.2]
  simp

/-- C8 counterexample: a TOC-derived part (`{A}p1`) with an empty spine —
no spine record matches, and no part identifier appears in the spine — is
returned successfully with default zero duration, length and position,
contradicting the claimed `UnknownPart` / `MissingSpineData` failures (no
such errors exist in the code). -/
theorem C8_counterexample :
    parse_toc ujId [] tocT [] =
      .ok [(pnA, { chapters := [{ title := strL "T", part_name := pnA,
                                  start_second := 0, end_second := 0 }],
                   url := [], audio_duration := 0, file_length := 0,
                   spine_position := 0 })] := by
  decide

/-- C8 amended: a TOC part-group with no matching spine record keeps the
default empty url and zero duration/length/position and no error is
raised; the only structural failure `parse_toc` produces is a `KeyError`
in the opposite direction, when a spine record's
`-odread-original-path` is absent from the TOC part-groups. -/
theorem C8_amended :
    (∀ (uj : Str → Str → Str) (base : Str) (toc : List TocItem)
       (es : List ChapterMarker),
      parseEntries toc = .ok es →
      parse_toc uj base toc [] = .ok (resolveAllEnds (groupParts es)) ∧
      ∀ km ∈ resolveAllEnds (groupParts es),
        km.2.url = [] ∧ km.2.audio_duration = 0 ∧ km.2.file_length = 0 ∧
          km.2.spine_position = 0) ∧
    parse_toc ujId [] tocT spineMissing =
      .error ("KeyError: " ++ String.mk (strL "missing")) := by
  constructor
  · intro uj base toc es hE
    constructor
    · unfold parse_toc
      rw [hE]
      rfl
    · intro km hkm
      unfold resolveAllEnds at hkm
      obtain ⟨km0, hkm0, heq⟩ := List.mem_map.mp hkm
      have h0 := groupParts_zero_fields es [] (by intro km2 h; cases h) km0 hkm0
      rw [← heq]
      simpa [resolveMeta] using h0
  · decide

/-- C8 witness: the amended statement evaluated on the one-part toc with
an empty spine. -/
theorem C8_witness :
    (parse_toc ujId [] tocT [] = .ok (resolveAllEnds (groupParts esT)) ∧
      ∀ km ∈ resolveAllEnds (groupParts esT),
        km.2.url = [] ∧ km.2.audio_duration = 0 ∧ km.2.file_length = 0 ∧
          km.2.spine_position = 0) :=
  C8_amended.1 ujId [] tocT esT (by decide)

/-- C5: in both builder variants every marker's end is the next marker's
start within the part, and the last marker's end is the part's
authoritative duration — the (possibly spine-declared, possibly default)
`audio-duration` stored in the part metadata for the API-sourced variant,
and the real decoded duration `decoded_ms` for the embedded-marker
variant. -/
theorem C5_end_resolution :
    (∀ (uj : Str → Str → Str) (base : Str) (toc : List TocItem) (spine : List SpineItem)
       (res : List (Str × PartMeta)) (km : Str × PartMeta),
      parse_toc uj base toc spine = .ok res → km ∈ res →
      ∀ (i : Nat) (h : i < km.2.chapters.length),
        (km.2.chapters.get ⟨i, h⟩).end_second =
          if h2 : i + 1 < km.2.chapters.length
          then (km.2.chapters.get ⟨i + 1, h2⟩).start_second
          else km.2.audio_duration) ∧
    (∀ (decoded_ms : Int) (ms : List (Str × Str × Int)) (i : Nat)
       (h : i < (generated_markers decoded_ms ms).length),
      ((generated_markers decoded_ms ms).get ⟨i, h⟩).end_time =
        if h2 : i + 1 < ms.length then (ms.get ⟨i + 1, h2⟩).2.2 else decoded_ms) := by
  constructor
  · intro uj base toc spine res km hok hkm i h
    unfold parse_toc at hok
    cases hE : parseEntries toc with
    | error msg =>
      rw [hE] at hok
      simp [Bind.bind, Except.bind] at hok
    | ok es =>
      rw [hE] at hok
      simp only [Bind.bind, Except.bind] at hok
      cases hS : applySpine uj base (groupParts es) spine with
      | error msg =>
        rw [hS] at hok
        simp at hok
      | ok parsed =>
        rw [hS] at hok
        simp only [Except.ok.injEq] at hok
        subst hok
        obtain ⟨m0, haud, hch⟩ := mem_resolveAllEnds hkm
        revert h
        rw [hch, haud]
        intro h
        exact resolveEnds_end_eq m0.audio_duration m0.chapters i h
  · intro decoded_ms ms i h
    exact generated_markers_end_eq decoded_ms ms i h

/-- C5 witness: the end-resolution formula evaluated on the `tocEx1` run
(for the API-sourced variant) and on a two-marker embedded input with
decoded duration 9000 ms. -/
theorem C5_witness :
    ((((pnA, metaEx1) : Str × PartMeta).2.chapters.get ⟨0, by decide⟩).end_second =
      if h2 : 0 + 1 < ((pnA, metaEx1) : Str × PartMeta).2.chapters.length
      then (((pnA, metaEx1) : Str × PartMeta).2.chapters.get ⟨0 + 1, h2⟩).start_second
      else ((pnA, metaEx1) : Str × PartMeta).2.audio_duration) ∧
    ((generated_markers 9000 msEx).get ⟨1, by decide⟩).end_time =
      if h2 : 1 + 1 < msEx.length then (msEx.get ⟨1 + 1, h2⟩).2.2 else 9000 :=
  ⟨C5_end_resolution.1 ujId [] tocEx1 spineEx1 [(pnA, metaEx1)] (pnA, metaEx1)
      (by decide) (by decide) 0 (by decide),
   C5_end_resolution.2 9000 msEx 1 (by decide)⟩

/-- C6: for a well-formed path — 36-character brace token, non-empty
`#`-free suffix, and a `\d+` or `\d+.\d+` fragment — `parse_part_path`
returns the marker whose `part_name` is the full match up to but
excluding the fragment and whose `start_second` is the fragment read as a
decimal number; with no fragment the start is 0; and a path rejected by
`FILE_PART_RE` raises `ValueError` (modelled as `Except.error`) carrying
the offending string. -/
theorem C6_part_path_shape :
    (∀ title t u d : Str, t.length = 36 → (∀ c ∈ t, isIdChar c = true) →
      u ≠ [] → (∀ c ∈ u, c ≠ '#') → d ≠ [] → (∀ c ∈ d, c.isDigit = true) →
      parse_part_path title ('{' :: t ++ '}' :: (u ++ '#' :: d)) =
        .ok { title := title, part_name := '{' :: t ++ '}' :: u,
              start_second := (natVal d : ℚ), end_second := 0 }) ∧
    (∀ title t u d e2 : Str, t.length = 36 → (∀ c ∈ t, isIdChar c = true) →
      u ≠ [] → (∀ c ∈ u, c ≠ '#') → d ≠ [] → (∀ c ∈ d, c.isDigit = true) →
      e2 ≠ [] → (∀ c ∈ e2, c.isDigit = true) →
      parse_part_path title ('{' :: t ++ '}' :: (u ++ '#' :: (d ++ '.' :: e2))) =
        .ok { title := title, part_name := '{' :: t ++ '}' :: u,
              start_second := (natVal d : ℚ) + (natVal e2 : ℚ) / (10 : ℚ) ^ e2.length,
              end_second := 0 }) ∧
    (∀ title t u : Str, t.length = 36 → (∀ c ∈ t, isIdChar c = true) →
      u ≠ [] → (∀ c ∈ u, c ≠ '#') →
      parse_part_path title ('{' :: t ++ '}' :: u) =
        .ok { title := title, part_name := '{' :: t ++ '}' :: u,
              start_second := 0, end_second := 0 }) ∧
    (∀ title s : Str, FILE_PART_RE_match s = none →
      parse_part_path title s = .error ("Unexpected path format: " ++ String.mk s)) := by
  refine ⟨?_, ?_, ?_, ?_⟩
  · intro title t u d h36 hclass hu huc hd hdig
    unfold parse_part_path
    rw [FILE_PART_RE_match_frag t u d h36 hclass hu huc (fragParse_digits d hd hdig)]
    simp only [decimalVal_digits d hdig]
  · intro title t u d e2 h36 hclass hu huc hd hdig he hed
    unfold parse_part_path
    rw [FILE_PART_RE_match_frag t u (d ++ '.' :: e2) h36 hclass hu huc
          (fragParse_decimal d e2 hd hdig he hed)]
    simp only [decimalVal_decimal d e2 hdig hed]
  · intro title t u h36 hclass hu huc
    unfold parse_part_path
    rw [FILE_PART_RE_match_no_frag t u h36 hclass hu huc]
  · intro title s hnone
    unfold parse_part_path
    rw [hnone]

/-- C6 witness: the identifier parser evaluated on `{idA}p1#12.5` and on
`{idA}p1`. -/
theorem C6_witness :
    parse_part_path (strL "T") ('{' :: idA ++ '}' :: (strL "p1" ++ '#' :: (strL "12" ++ '.' :: strL "5"))) =
      .ok { title := strL "T", part_name := '{' :: idA ++ '}' :: strL "p1",
            start_second := (natVal (strL "12") : ℚ) +
              (natVal (strL "5") : ℚ) / (10 : ℚ) ^ (strL "5").length,
            end_second := 0 } ∧
    parse_part_path (strL "T") ('{' :: idA ++ '}' :: strL "p1") =
      .ok { title := strL "T", part_name := '{' :: idA ++ '}' :: strL "p1",
            start_second := 0, end_second := 0 } :=
  ⟨C6_part_path_shape.2.1 (strL "T") idA (strL "p1") (strL "12") (strL "5")
      (by decide) (by decide) (by decide) (by decide) (by decide) (by decide)
      (by decide) (by decide),
   C6_part_path_shape.2.2.1 (strL "T") idA (strL "p1")
      (by decide) (by decide) (by decide) (by decide)⟩

/-- C7 counterexample: three per-part-valid parts where "Intro" recurs in
the non-adjacent third part.  The merge extends the first "Intro" entry's
end to 160, so the merged list is not end-chained: the first entry's end
(160) is neither the next entry's start (100) nor the total duration
(170).  This refutes the claimed unconditional MergedTimeline invariant. -/
theorem C7_counterexample :
    merge_toc [(strL "p1", introPart), (strL "p2", ch2Part), (strL "p3", introCh3Part)] =
      [{ title := strL "Intro", part_name := [], start_second := 0, end_second := 160 },
       { title := strL "Ch2", part_name := [], start_second := 100, end_second := 150 },
       { title := strL "Ch3", part_name := [], start_second := 160, end_second := 170 }] ∧
    (∀ p ∈ [introPart, ch2Part, introCh3Part], validPart p) ∧
    sumDur [introPart, ch2Part, introCh3Part] = 170 ∧
    ¬endsChained
      [{ title := strL "Intro", part_name := [], start_second := 0, end_second := 160 },
       { title := strL "Ch2", part_name := [], start_second := 100, end_second := 150 },
       { title := strL "Ch3", part_name := [], start_second := 160, end_second := 170 }]
      170 := by
  refine ⟨?_, ?_, ?_, ?_⟩
  · norm_num [merge_toc, mergeStep, sumDur, alookup, setEndVal, strL, introPart, ch2Part,
      introCh3Part, List.enum, List.enumFrom, List.foldl]
    decide
  · intro p hp
    fin_cases hp <;>
      norm_num [validPart, endsChained, introPart, ch2Part, introCh3Part, strL] <;>
      simp
  · norm_num [sumDur, introPart, ch2Part, introCh3Part]
  · norm_num [endsChained]

/-- C7 amended: `part_id` is cleared on every merged marker
unconditionally; and when no title recurs anywhere across the parts and
every part satisfies the per-part invariant (non-empty chapters, ends
chained to the declared duration, first start 0, start ≤ end), the merged
timeline has globally non-decreasing starts and every end is the next
start, the final one being the total declared duration. -/
theorem C7_amended :
    (∀ (toc : List (Str × PartMeta)) (e : ChapterMarker), e ∈ merge_toc toc →
      e.part_name = []) ∧
    (∀ toc : List (Str × PartMeta),
      (allTitles (toc.map Prod.snd)).Nodup →
      (∀ p ∈ toc.map Prod.snd, validPart p) →
      startsMono (merge_toc toc) ∧
      endsChained (merge_toc toc) (sumDur (toc.map Prod.snd))) := by
  constructor
  · intro toc e he
    rw [merge_toc_eq_mergeGo] at he
    obtain ⟨tse, _, heq⟩ := List.mem_map.mp he
    rw [← heq]
  · intro toc hnodup hvalid
    rw [merge_toc_offsetMerged toc hnodup]
    cases hps : toc.map Prod.snd with
    | nil => exact ⟨trivial, trivial⟩
    | cons p ps2 =>
      have hval2 : ∀ q ∈ p :: ps2, validPart q := by
        rw [← hps]
        exact hvalid
      obtain ⟨hchain, hmono, _⟩ := offsetMerged_invariant (p :: ps2) 0 (by simp) hval2
      rw [zero_add] at hchain
      exact ⟨hmono, hchain⟩

/-- C7 witness: the amended invariant evaluated on the two-part example
merge (distinct titles, valid parts), plus the cleared `part_id` of its
first merged marker. -/
theorem C7_witness :
    ({ title := strL "Intro", part_name := [], start_second := 0,
       end_second := 100 } : ChapterMarker).part_name = [] ∧
    (startsMono (merge_toc tocEx13) ∧
      endsChained (merge_toc tocEx13) (sumDur (tocEx13.map Prod.snd))) := by
  constructor
  · refine C7_amended.1 tocEx13 _ ?_
    have hm : merge_toc tocEx13 =
        [{ title := strL "Intro", part_name := [], start_second := 0, end_second := 100 },
         { title := strL "Ch1", part_name := [], start_second := 100, end_second := 150 }] := by
      norm_num [merge_toc, tocEx13, mergeStep, sumDur, alookup, setEndVal, strL, introPart,
        ch1Part, List.enum, List.enumFrom, List.foldl]
      decide
    rw [hm]
    simp
  · refine C7_amended.2 tocEx13 (by decide) ?_
    intro p hp
    simp only [tocEx13, List.map_cons, List.map_nil] at hp
    fin_cases hp <;>
      norm_num [validPart, endsChained, introPart, ch1Part, strL]
